import Mathlib

/-!
Shallow embedding of the constraint-solving core of the magnet-game
repository (`Ball.ts`, `Shaft.ts`, and the `ConstraintSolver` class).

Scalars are taken in an arbitrary `LinearOrderedField K`; the square root
used by `THREE.Vector3.length`, and the pseudo-random stream used by the
coincident-point escape hatch, are passed in as explicit parameters
(`sqrt : K → K`, `rng2 : ℕ → ℕ → Vec3 K`).  The float arithmetic of the
source is idealised to exact field arithmetic; instantiating `K := ℝ` with
`Real.sqrt` gives the idealised real semantics, while `K := ℚ` with an
exact square root on perfect squares gives an executable instance used to
evaluate the development on concrete inputs (all concrete runs below only
ever take square roots of perfect squares, where the two agree).

Balls and shafts are identified by natural-number handles; the JS object
graph (`Ball.connectedShafts` back-references, `Shaft.startBall/endBall`)
becomes a `World` of association lists, and in-place mutation becomes
functional update.
-/

namespace MagnetGame

/-- A 3-component vector, mirroring `THREE.Vector3`. -/
structure Vec3 (K : Type) where
  x : K
  y : K
  z : K
deriving DecidableEq, Repr

variable {K : Type} [LinearOrderedField K]

/-- Componentwise addition (`Vector3.add`). -/
def vadd (a b : Vec3 K) : Vec3 K := ⟨a.x + b.x, a.y + b.y, a.z + b.z⟩

/-- Componentwise subtraction (`Vector3.sub` / `subVectors`). -/
def vsub (a b : Vec3 K) : Vec3 K := ⟨a.x - b.x, a.y - b.y, a.z - b.z⟩

/-- Scalar multiple (`Vector3.multiplyScalar`). -/
def vsmul (c : K) (v : Vec3 K) : Vec3 K := ⟨c * v.x, c * v.y, c * v.z⟩

/-- Euclidean length of a vector (`Vector3.length`), with the square root
taken by the supplied `sqrt` function. -/
def vnorm (sqrt : K → K) (v : Vec3 K) : K :=
  sqrt (v.x * v.x + v.y * v.y + v.z * v.z)

/-- Normalisation (`Vector3.normalize`): THREE divides by `length() || 1`,
so a vector of length `0` is returned unchanged. -/
def vnormalize (sqrt : K → K) (v : Vec3 K) : Vec3 K :=
  let l := vnorm sqrt v
  if l = 0 then v else ⟨v.x / l, v.y / l, v.z / l⟩

/-- Distance between two points (`Vector3.distanceTo`). -/
def dist3 (sqrt : K → K) (a b : Vec3 K) : K := vnorm sqrt (vsub b a)

/-- Ball radius constant (`BALL_RADIUS = 0.5` in `Ball.ts`). -/
def BALL_RADIUS : K := 1 / 2

/-- Solver position tolerance (`POSITION_TOLERANCE = 0.001`). -/
def POSITION_TOLERANCE : K := 1 / 1000

/-- Iteration budget of the solver (`MAX_ITERATIONS = 500`). -/
def MAX_ITERATIONS : Nat := 500

/-- Near-zero threshold for the coincident-ball escape hatch
(`currentDist < 0.0001` in `ConstraintSolver.solve`). -/
def COINCIDENT_EPS : K := 1 / 10000

/-- Relaxation (damping) factor of the solver (`relaxation = 0.5`). -/
def RELAXATION : K := 1 / 2

/-- State of one `Shaft`: its fixed length, the two optional ball handles
(`startBall`, `endBall`) and the direction hint used while the end is
unbound (`startDirection`).  Rendering-only fields are omitted. -/
structure ShaftData (K : Type) where
  length : K
  startBall : Option Nat
  endBall : Option Nat
  startDirection : Vec3 K
deriving DecidableEq, Repr

/-- State of one `Ball`: its position and the list of incident shaft
handles (`connectedShafts`, in insertion order).  The unused `locked`
flag and rendering fields are omitted. -/
structure BallData (K : Type) where
  position : Vec3 K
  connectedShafts : List Nat
deriving DecidableEq, Repr

/-- The whole object graph: balls and shafts as association lists keyed by
handles (JS object references become handles). -/
structure World (K : Type) where
  balls : List (Nat × BallData K)
  shafts : List (Nat × ShaftData K)
deriving DecidableEq, Repr

/-- Dereference a ball handle. -/
def getBall (w : World K) (i : Nat) : Option (BallData K) :=
  (w.balls.find? (fun p => p.1 == i)).map (·.2)

/-- Dereference a shaft handle. -/
def getShaft (w : World K) (sid : Nat) : Option (ShaftData K) :=
  (w.shafts.find? (fun p => p.1 == sid)).map (·.2)

/-- `Shaft.isFullyConnected`: both ends bound. -/
def isFullyConnected (sh : ShaftData K) : Bool :=
  sh.startBall.isSome && sh.endBall.isSome

/-- `Ball.setPosition` lifted to the world. -/
def setPosition (w : World K) (i : Nat) (pos : Vec3 K) : World K :=
  { w with balls := w.balls.map (fun p =>
      if p.1 = i then (p.1, { p.2 with position := pos }) else p) }

/-- `Shaft.setStartDirection`: stores the normalised direction. -/
def setStartDirection (sqrt : K → K) (w : World K) (sid : Nat) (d : Vec3 K) :
    World K :=
  { w with shafts := w.shafts.map (fun p =>
      if p.1 = sid then (p.1, { p.2 with startDirection := vnormalize sqrt d })
      else p) }

/-- `Ball.getConnectedBalls`: for each incident shaft, the opposite
endpoint, provided both ends of that shaft are bound. -/
def connectedOf (w : World K) (b : Nat) : List Nat :=
  match getBall w b with
  | none => []
  | some ball =>
    ball.connectedShafts.filterMap (fun sid =>
      match getShaft w sid with
      | none => none
      | some sh =>
        if sh.startBall = some b then sh.endBall
        else if sh.endBall = some b then sh.startBall
        else none)

/-- Pop queue entries until the first ball not yet visited (the
`if (visited.has(ball)) continue` skips of the BFS loop). -/
def popUnvisited (visited : List Nat) : List Nat → Option (Nat × List Nat)
  | [] => none
  | b :: rest =>
    if b ∈ visited then popUnvisited visited rest else some (b, rest)

/-- Core loop of `ConstraintSolver.getAllConnectedBalls`: breadth-first
traversal with a visited list (kept in visitation order, like a JS `Set`)
and a queue.  Each productive step visits one new ball and enqueues its
not-yet-visited neighbours; `fuel` bounds the number of visits and is
chosen large enough below that it never runs out. -/
def bfsAux (w : World K) : Nat → List Nat → List Nat → List Nat
  | 0, visited, _ => visited
  | fuel + 1, visited, queue =>
    match popUnvisited visited queue with
    | none => visited
    | some (b, rest) =>
      bfsAux w fuel (visited ++ [b])
        (rest ++ (connectedOf w b).filter (fun c => decide (¬ (c ∈ visited ∨ c = b))))

/-- All ball handles mentioned by the world (ball keys plus every bound
shaft endpoint); every handle the BFS can ever enqueue beyond its seeds
lies in this list. -/
def allIds (w : World K) : List Nat :=
  w.balls.map Prod.fst ++
    w.shafts.flatMap (fun p => p.2.startBall.toList ++ p.2.endBall.toList)

/-- `ConstraintSolver.getAllConnectedBalls`: every ball reachable from the
source or the target along shafts whose both ends are bound, in
breadth-first visitation order. -/
def getAllConnectedBalls (w : World K) (sourceId targetId : Nat) : List Nat :=
  bfsAux w (sourceId :: targetId :: allIds w).length [] [sourceId, targetId]

/-- Per-ball solver state (`BallState`). -/
structure BallState (K : Type) where
  originalPosition : Vec3 K
  newPosition : Vec3 K
  mass : K
deriving DecidableEq, Repr

/-- One distance constraint (`Constraint`): the two ball handles, the
required distance, and the originating shaft (`none` marks the tentative
connection). -/
structure Constraint (K : Type) where
  ball1 : Nat
  ball2 : Nat
  distance : K
  shaft : Option Nat
deriving DecidableEq, Repr

/-- Lookup in a ball-state map (a JS `Map<Ball, BallState>` becomes an
association list in insertion order). -/
def lookupState (states : List (Nat × BallState K)) (i : Nat) :
    Option (BallState K) :=
  (states.find? (fun p => p.1 == i)).map (·.2)

/-- In-place mutation of one entry of the ball-state map. -/
def setState (states : List (Nat × BallState K)) (i : Nat)
    (f : BallState K → BallState K) : List (Nat × BallState K) :=
  states.map (fun p => if p.1 = i then (p.1, f p.2) else p)

/-- `Map.set` semantics: replace the entry if the key is present,
otherwise append. -/
def upsertState (states : List (Nat × BallState K)) (i : Nat)
    (v : BallState K) : List (Nat × BallState K) :=
  if states.any (fun p => p.1 == i) then
    states.map (fun p => if p.1 = i then (p.1, v) else p)
  else states ++ [(i, v)]

/-- The ball-state initialisation of `ConstraintSolver.createPlan`: for
each ball of the affected set, both positions start at the current
position and the mass is `1 +` the number of fully-connected entries of
its `connectedShafts` list. -/
def buildBallStates (w : World K) (allBalls : List Nat) :
    List (Nat × BallState K) :=
  allBalls.foldl (fun acc i =>
    match getBall w i with
    | none => acc
    | some ball =>
      let connections :=
        ((ball.connectedShafts.filterMap (getShaft w)).filter
          isFullyConnected).length
      upsertState acc i
        ⟨ball.position, ball.position, 1 + (connections : K)⟩) []

/-- Inner step of `ConstraintSolver.collectConstraints`: process one
incident shaft handle against the accumulator
`(constraints so far, seen shaft handles)`. -/
def collectStep (w : World K) (acc : List (Constraint K) × List Nat)
    (sid : Nat) : List (Constraint K) × List Nat :=
  if sid ∈ acc.2 then acc
  else
    match getShaft w sid with
    | none => acc
    | some sh =>
      match sh.startBall, sh.endBall with
      | some a, some b =>
        (acc.1 ++ [⟨a, b, sh.length + 2 * BALL_RADIUS, some sid⟩],
          acc.2 ++ [sid])
      | _, _ => acc

/-- `ConstraintSolver.collectConstraints`: one constraint per fully-bound
shaft incident to the affected set (deduplicated by the seen-set), then
the tentative source–target constraint appended last. -/
def collectConstraints (w : World K) (allBalls : List Nat)
    (sourceId targetId : Nat) (requiredDistance : K) : List (Constraint K) :=
  let folded := allBalls.foldl (fun acc i =>
      match getBall w i with
      | none => acc
      | some ball => ball.connectedShafts.foldl (collectStep w) acc)
    (([], []) : List (Constraint K) × List Nat)
  folded.1 ++ [⟨sourceId, targetId, requiredDistance, none⟩]

/-- One constraint application inside a solver pass.  `rngv` supplies the
three `Math.random()` draws used only by the coincident-ball escape
hatch.  The accumulator carries the states and the running max error. -/
def applyConstraint (sqrt : K → K) (rngv : Vec3 K)
    (acc : List (Nat × BallState K) × K) (c : Constraint K) :
    List (Nat × BallState K) × K :=
  match lookupState acc.1 c.ball1, lookupState acc.1 c.ball2 with
  | some s1, some s2 =>
    let diff := vsub s2.newPosition s1.newPosition
    let currentDist := vnorm sqrt diff
    let delta :=
      if currentDist < COINCIDENT_EPS then
        vnormalize sqrt (vsub rngv ⟨1 / 2, 1 / 2, 1 / 2⟩)
      else vnormalize sqrt diff
    let error := currentDist - c.distance
    let maxErr := max acc.2 |error|
    if POSITION_TOLERANCE < |error| then
      let totalInvMass := 1 / s1.mass + 1 / s2.mass
      let w1 := (1 / s1.mass) / totalInvMass
      let w2 := (1 / s2.mass) / totalInvMass
      let correction := error * RELAXATION
      let st1 := setState acc.1 c.ball1 (fun s =>
        { s with newPosition := vadd s.newPosition (vsmul (correction * w1) delta) })
      let st2 := setState st1 c.ball2 (fun s =>
        { s with newPosition := vsub s.newPosition (vsmul (correction * w2) delta) })
      (st2, maxErr)
    else (acc.1, maxErr)
  | _, _ => acc

/-- One full relaxation pass: apply every constraint in emission order,
starting the pass's max error at `0`.  `rngp` indexes the potential
random draws by constraint position. -/
def runPass (sqrt : K → K) (rngp : Nat → Vec3 K)
    (constraints : List (Constraint K)) (states : List (Nat × BallState K)) :
    List (Nat × BallState K) × K :=
  (constraints.enum).foldl
    (fun acc ic => applyConstraint sqrt (rngp ic.1) acc ic.2) (states, 0)

/-- Result record of `ConstraintSolver.solve`. -/
structure SolveResult (K : Type) where
  converged : Bool
  maxError : K
  iterations : Nat
deriving DecidableEq, Repr

/-- The iteration loop of `ConstraintSolver.solve`: run passes until the
pass's max error drops below the tolerance or the budget runs out; on
exhaustion report convergence against the looser `100 ×` threshold.
`lastErr` carries the previous pass's max error (only read on
exhaustion). -/
def solveAux (sqrt : K → K) (rng2 : Nat → Nat → Vec3 K)
    (constraints : List (Constraint K)) :
    Nat → Nat → List (Nat × BallState K) → K →
      SolveResult K × List (Nat × BallState K)
  | 0, _, states, lastErr =>
    (⟨decide (lastErr < POSITION_TOLERANCE * 100), lastErr, MAX_ITERATIONS⟩,
      states)
  | fuel + 1, iter, states, _ =>
    let p := runPass sqrt (rng2 iter) constraints states
    if p.2 < POSITION_TOLERANCE then (⟨true, p.2, iter⟩, p.1)
    else solveAux sqrt rng2 constraints fuel (iter + 1) p.1 p.2

/-- `ConstraintSolver.solve`.  The initial `lastErr` argument is never
read because `MAX_ITERATIONS > 0` (it plays the role of the `Infinity`
initialiser of the source). -/
def solve (sqrt : K → K) (rng2 : Nat → Nat → Vec3 K)
    (states : List (Nat × BallState K)) (constraints : List (Constraint K)) :
    SolveResult K × List (Nat × BallState K) :=
  solveAux sqrt rng2 constraints MAX_ITERATIONS 0 states 0

/-- Result of `ConstraintSolver.createPlan` (the message string of the
source carries no further information and is omitted). -/
structure ConnectionPlan (K : Type) where
  valid : Bool
  ballStates : List (Nat × BallState K)
deriving DecidableEq, Repr

/-- `ConstraintSolver.createPlan`: initialise ball states, collect the
constraints, run the iterative solver, and report validity as the
solver's convergence flag.  The returned states are the solver's final
(mutated) states in both cases. -/
def createPlan (sqrt : K → K) (rng2 : Nat → Nat → Vec3 K) (w : World K)
    (sourceId targetId : Nat) (requiredDistance : K) (allBalls : List Nat) :
    ConnectionPlan K :=
  let ballStates := buildBallStates w allBalls
  let constraints :=
    collectConstraints w allBalls sourceId targetId requiredDistance
  let r := solve sqrt rng2 ballStates constraints
  ⟨r.1.converged, r.2⟩

/-- Step of the existing-shaft check of `ConstraintSolver.validatePlan`:
process one incident shaft handle against
`(checked shaft handles, running max error)`. -/
def validateStep (sqrt : K → K) (w : World K)
    (states : List (Nat × BallState K)) (acc : List Nat × K) (sid : Nat) :
    List Nat × K :=
  if sid ∈ acc.1 then acc
  else
    match getShaft w sid with
    | none => acc
    | some sh =>
      if isFullyConnected sh then
        match sh.startBall, sh.endBall with
        | some a, some b =>
          match lookupState states a, lookupState states b with
          | some sa, some sb =>
            (acc.1 ++ [sid],
              max acc.2
                |dist3 sqrt sa.newPosition sb.newPosition -
                  (sh.length + 2 * BALL_RADIUS)|)
          | _, _ => (acc.1 ++ [sid], acc.2)
        | _, _ => (acc.1 ++ [sid], acc.2)
      else acc

/-- `ConstraintSolver.validatePlan`: reject if the tentative connection's
error against the candidate positions exceeds `POSITION_TOLERANCE * 100`,
or if any fully-bound shaft incident to a planned ball (with both
endpoint states present) exceeds the same bound.  Returns the validity
flag (the message strings are omitted). -/
def validatePlan (sqrt : K → K) (w : World K) (plan : ConnectionPlan K)
    (newShaftLength : K) (sourceId targetId : Nat) : Bool :=
  let requiredNewDist := newShaftLength + 2 * BALL_RADIUS
  match lookupState plan.ballStates sourceId,
      lookupState plan.ballStates targetId with
  | some ss, some ts =>
    let newConnError :=
      |dist3 sqrt ss.newPosition ts.newPosition - requiredNewDist|
    if POSITION_TOLERANCE * 100 < newConnError then false
    else
      let folded := plan.ballStates.foldl (fun acc p =>
          match getBall w p.1 with
          | none => acc
          | some ball =>
            ball.connectedShafts.foldl (validateStep sqrt w plan.ballStates)
              acc)
        (([], 0) : List Nat × K)
      if POSITION_TOLERANCE * 100 < folded.2 then false else true
  | _, _ => false

/-- The absolute error a given shaft handle would contribute to the
existing-shaft check of `validatePlan` (`none` when it is skipped: the
handle is dangling, the shaft is not fully bound, or an endpoint has no
planned state). -/
def validateErr (sqrt : K → K) (w : World K)
    (states : List (Nat × BallState K)) (sid : Nat) : Option K :=
  match getShaft w sid with
  | none => none
  | some sh =>
    if isFullyConnected sh then
      match sh.startBall, sh.endBall with
      | some a, some b =>
        match lookupState states a, lookupState states b with
        | some sa, some sb =>
          some |dist3 sqrt sa.newPosition sb.newPosition -
            (sh.length + 2 * BALL_RADIUS)|
        | _, _ => none
      | _, _ => none
    else none

/-- `ConstraintSolver.applyPlan`: write back every candidate position that
differs from the original by more than the tolerance. -/
def applyPlan (sqrt : K → K) (w : World K) (plan : ConnectionPlan K) :
    World K :=
  plan.ballStates.foldl (fun wacc p =>
    if POSITION_TOLERANCE <
        dist3 sqrt p.2.originalPosition p.2.newPosition then
      setPosition wacc p.1 p.2.newPosition
    else wacc) w

/-- `ConstraintSolver.solveConstraints`, the entry point: orient the
pending shaft toward the target, build and solve the plan, validate it,
and apply it only when both planning and validation succeed.  Returns the
success flag and the resulting world.  (In the source the three
dereferences cannot fail because JS passes object references; the `none`
fallbacks below are unreachable in well-formed worlds.) -/
def solveConstraints (sqrt : K → K) (rng2 : Nat → Nat → Vec3 K)
    (w : World K) (sourceId shaftId targetId : Nat) : Bool × World K :=
  match getShaft w shaftId, getBall w sourceId, getBall w targetId with
  | some newShaft, some sourceBall, some targetBall =>
    let requiredDistance := newShaft.length + 2 * BALL_RADIUS
    let allBalls := getAllConnectedBalls w sourceId targetId
    let direction :=
      vnormalize sqrt (vsub targetBall.position sourceBall.position)
    let w1 := setStartDirection sqrt w shaftId direction
    let plan := createPlan sqrt rng2 w1 sourceId targetId requiredDistance allBalls
    if plan.valid then
      if validatePlan sqrt w1 plan newShaft.length sourceId targetId then
        (true, applyPlan sqrt w1 plan)
      else (false, w1)
    else (false, w1)
  | _, _, _ => (false, w)

/-- `Ball.addConnectedShaft`: push the shaft handle unless it is already
present. -/
def addConnectedShaft (l : List Nat) (sid : Nat) : List Nat :=
  if sid ∈ l then l else l ++ [sid]

/-- `Ball.removeConnectedShaft`: `indexOf` + `splice(i, 1)` removes the
first occurrence (no-op when absent). -/
def removeConnectedShaft (l : List Nat) (sid : Nat) : List Nat :=
  l.erase sid

/-- Update one ball of the world in place. -/
def mapBall (w : World K) (i : Nat) (f : BallData K → BallData K) : World K :=
  { w with balls := w.balls.map (fun p => if p.1 = i then (p.1, f p.2) else p) }

/-- Update one shaft of the world in place. -/
def mapShaft (w : World K) (sid : Nat) (f : ShaftData K → ShaftData K) :
    World K :=
  { w with shafts := w.shafts.map (fun p => if p.1 = sid then (p.1, f p.2) else p) }

/-- `ball.addConnectedShaft(shaft)` lifted to the world. -/
def ballAddShaft (w : World K) (i sid : Nat) : World K :=
  mapBall w i (fun b =>
    { b with connectedShafts := addConnectedShaft b.connectedShafts sid })

/-- `ball.removeConnectedShaft(shaft)` lifted to the world. -/
def ballRemoveShaft (w : World K) (i sid : Nat) : World K :=
  mapBall w i (fun b =>
    { b with connectedShafts := removeConnectedShaft b.connectedShafts sid })

/-- Componentwise negation (`Vector3.negate`). -/
def vneg (v : Vec3 K) : Vec3 K := ⟨-v.x, -v.y, -v.z⟩

/-- `Shaft.attachToStart`: bind the start slot, register the shaft on the
ball, and (when a connection point is given) recompute the direction hint
from the ball centre toward that point. -/
def attachToStart (sqrt : K → K) (w : World K) (sid bid : Nat)
    (connectionPoint : Option (Vec3 K)) : World K :=
  let w1 := ballAddShaft (mapShaft w sid (fun sh => { sh with startBall := some bid })) bid sid
  match connectionPoint, getBall w bid with
  | some cp, some ball =>
    mapShaft w1 sid (fun sh =>
      { sh with startDirection := vnormalize sqrt (vsub cp ball.position) })
  | _, _ => w1

/-- `Shaft.attachToEnd`: bind the end slot and register the shaft. -/
def attachToEnd (w : World K) (sid bid : Nat) : World K :=
  ballAddShaft (mapShaft w sid (fun sh => { sh with endBall := some bid })) bid sid

/-- `Shaft.disconnect`: unregister from both bound balls and clear both
slots. -/
def disconnect (w : World K) (sid : Nat) : World K :=
  match getShaft w sid with
  | none => w
  | some sh =>
    let w1 :=
      match sh.startBall with
      | some b =>
        mapShaft (ballRemoveShaft w b sid) sid (fun s => { s with startBall := none })
      | none => w
    match sh.endBall with
    | some b =>
      mapShaft (ballRemoveShaft w1 b sid) sid (fun s => { s with endBall := none })
    | none => w1

/-- `Shaft.disconnectStart`: unregister from the start ball; if the end
is bound it becomes the new start (flipping the direction hint). -/
def disconnectStart (w : World K) (sid : Nat) : World K :=
  match getShaft w sid with
  | none => w
  | some sh =>
    match sh.startBall with
    | none => w
    | some b =>
      let w1 := ballRemoveShaft w b sid
      match sh.endBall with
      | some e =>
        mapShaft w1 sid (fun s =>
          { s with startBall := some e, endBall := none,
                   startDirection := vneg s.startDirection })
      | none => mapShaft w1 sid (fun s => { s with startBall := none })

/-- `Shaft.disconnectEnd`: unregister from the end ball and clear the end
slot. -/
def disconnectEnd (w : World K) (sid : Nat) : World K :=
  match getShaft w sid with
  | none => w
  | some sh =>
    match sh.endBall with
    | none => w
    | some b =>
      mapShaft (ballRemoveShaft w b sid) sid (fun s => { s with endBall := none })

/-- The graph-mutation primitives of `Ball`/`Shaft` considered by the
duplicate-freeness invariant. -/
inductive Op (K : Type) where
  | addShaft (ball sid : Nat)
  | removeShaft (ball sid : Nat)
  | attachStart (sid ball : Nat) (cp : Option (Vec3 K))
  | attachEnd (sid ball : Nat)
  | disconnectBoth (sid : Nat)
  | disconnectStartOp (sid : Nat)
  | disconnectEndOp (sid : Nat)

/-- Interpret one mutation primitive on the world. -/
def applyOp (sqrt : K → K) (w : World K) : Op K → World K
  | .addShaft b sid => ballAddShaft w b sid
  | .removeShaft b sid => ballRemoveShaft w b sid
  | .attachStart sid b cp => attachToStart sqrt w sid b cp
  | .attachEnd sid b => attachToEnd w sid b
  | .disconnectBoth sid => disconnect w sid
  | .disconnectStartOp sid => disconnectStart w sid
  | .disconnectEndOp sid => disconnectEnd w sid

/-- Interpret a sequence of mutation primitives. -/
def applyOps (sqrt : K → K) (ops : List (Op K)) (w : World K) : World K :=
  ops.foldl (applyOp sqrt) w

/-- Invariant: no ball's incident-shaft list contains a handle twice. -/
def ShaftListsNodup (w : World K) : Prop :=
  ∀ p ∈ w.balls, p.2.connectedShafts.Nodup

/-- Executable well-formedness of the object graph: every listed shaft
handle dereferences to a shaft having that ball as an endpoint, and every
bound shaft endpoint dereferences to a ball listing the shaft (the
invariants JS maintains automatically through object references and the
`attach`/`disconnect` discipline). -/
def wfCheck (w : World K) : Bool :=
  w.balls.all (fun p => p.2.connectedShafts.all (fun sid =>
    match getShaft w sid with
    | some sh => sh.startBall == some p.1 || sh.endBall == some p.1
    | none => false)) &&
  w.shafts.all (fun q =>
    (match q.2.startBall with
     | some i =>
       match getBall w i with
       | some b => b.connectedShafts.contains q.1
       | none => false
     | none => true) &&
    (match q.2.endBall with
     | some i =>
       match getBall w i with
       | some b => b.connectedShafts.contains q.1
       | none => false
     | none => true))

/-- All shaft handles incident to a ball of the given set, in the nested
iteration order of `collectConstraints` (and of `validatePlan`'s
existing-shaft check). -/
def incidentSids (w : World K) (ballIds : List Nat) : List Nat :=
  ballIds.flatMap (fun i =>
    match getBall w i with
    | none => []
    | some ball => ball.connectedShafts)

/-- Whether a shaft handle dereferences to a fully-bound shaft. -/
def boundShaft (w : World K) (sid : Nat) : Bool :=
  match getShaft w sid with
  | some sh => isFullyConnected sh
  | none => false

/-- Specification-side adjacency: a single shaft whose both ends are
bound links `a` and `b` (in either orientation). -/
def BoundLink (w : World K) (a b : Nat) : Prop :=
  ∃ sid sh, getShaft w sid = some sh ∧
    ((sh.startBall = some a ∧ sh.endBall = some b) ∨
      (sh.startBall = some b ∧ sh.endBall = some a))

/-- Specification-side reachability: zero or more bound-shaft hops. -/
def Reachable (w : World K) (a b : Nat) : Prop :=
  Relation.ReflTransGen (BoundLink w) a b

/-- Reachability along the implementation's adjacency
(`Ball.getConnectedBalls` back-references); coincides with `Reachable`
on well-formed worlds. -/
def AdjReach (w : World K) : Nat → Nat → Prop :=
  Relation.ReflTransGen (fun u v => v ∈ connectedOf w u)

/-- The working states before pass `n` of the solver loop (pass `0` sees
the initial states). -/
def passStates (sqrt : K → K) (rng2 : Nat → Nat → Vec3 K)
    (constraints : List (Constraint K)) (states : List (Nat × BallState K)) :
    Nat → List (Nat × BallState K)
  | 0 => states
  | n + 1 =>
    (runPass sqrt (rng2 n) constraints
      (passStates sqrt rng2 constraints states n)).1

/-- The max absolute constraint error recorded during pass `n`. -/
def passErr (sqrt : K → K) (rng2 : Nat → Nat → Vec3 K)
    (constraints : List (Constraint K)) (states : List (Nat × BallState K))
    (n : Nat) : K :=
  (runPass sqrt (rng2 n) constraints
    (passStates sqrt rng2 constraints states n)).2

/-- Exact square root on perfect rational squares (and junk `0`
elsewhere): the executable stand-in for `Math.sqrt` used on concrete
runs, all of which only take roots of perfect squares. -/
def sqrtQ (q : ℚ) : ℚ :=
  if 0 ≤ q ∧ (Nat.sqrt q.num.natAbs) ^ 2 = q.num.natAbs ∧
      (Nat.sqrt q.den) ^ 2 = q.den then
    (Nat.sqrt q.num.natAbs : ℚ) / (Nat.sqrt q.den : ℚ)
  else 0

/-- A concrete random stream for runs that never hit the coincident-ball
escape hatch (the value is never read there). -/
def rng0 : Nat → Nat → Vec3 ℚ := fun _ _ => ⟨0, 0, 0⟩

/-- A 1-dimensional world on which the solver provably cannot converge:
ball 0 sits between balls 1 and 2, bound to each by a small shaft
(required distance 3), and the tentative small shaft from ball 1 to
ball 2 also demands distance 3 — unsatisfiable on the line the dynamics
never leave.  The positions are an exact fixed point of the sequential
pass map, so all 500 passes recompute the same small rationals and the
final max error is exactly 3/2. -/
def exFail : World ℚ :=
  { balls :=
      [ (0, ⟨⟨0, 0, 0⟩, [10, 11]⟩),
        (1, ⟨⟨7 / 4, 0, 0⟩, [10, 12]⟩),
        (2, ⟨⟨-2, 0, 0⟩, [11]⟩) ],
    shafts :=
      [ (10, ⟨2, some 0, some 1, ⟨0, 1, 0⟩⟩),
        (11, ⟨2, some 0, some 2, ⟨0, 1, 0⟩⟩),
        (12, ⟨2, some 1, none, ⟨0, 1, 0⟩⟩) ] }

/-- The world `exFail` after the failed connection attempt: identical
except that the pending shaft's direction hint now points from the
source ball toward the target ball. -/
def exFailAfter : World ℚ :=
  { balls := exFail.balls,
    shafts :=
      [ (10, ⟨2, some 0, some 1, ⟨0, 1, 0⟩⟩),
        (11, ⟨2, some 0, some 2, ⟨0, 1, 0⟩⟩),
        (12, ⟨2, some 1, none, ⟨-1, 0, 0⟩⟩) ] }

/-- A concrete world where the proposed connection is already exactly
satisfied: two isolated balls at distance 3 and a pending small shaft
(required distance `2 + 2 × 0.5 = 3`). -/
def exOk : World ℚ :=
  { balls :=
      [ (1, ⟨⟨0, 0, 0⟩, [12]⟩),
        (2, ⟨⟨3, 0, 0⟩, []⟩) ],
    shafts := [ (12, ⟨2, some 1, none, ⟨0, 1, 0⟩⟩) ] }

/-- Concrete ball state for exercising the per-constraint update rule. -/
def s41 : BallState ℚ := ⟨⟨0, 0, 0⟩, ⟨0, 0, 0⟩, 1⟩

/-- Second concrete ball state (heavier, so the weights differ). -/
def s42 : BallState ℚ := ⟨⟨3, 0, 0⟩, ⟨3, 0, 0⟩, 2⟩

/-- Concrete state map for the update-rule example. -/
def st4 : List (Nat × BallState ℚ) := [(1, s41), (2, s42)]

/-- Concrete constraint (required distance 1, actual distance 3). -/
def c4 : Constraint ℚ := ⟨1, 2, 1, none⟩

/-- Concrete plan whose tentative connection badly misses distance 10. -/
def plan3 : ConnectionPlan ℚ :=
  ⟨true, [(1, ⟨⟨0, 0, 0⟩, ⟨0, 0, 0⟩, 1⟩), (2, ⟨⟨3, 0, 0⟩, ⟨3, 0, 0⟩, 1⟩)]⟩

/-- The initial ball states the planner builds for the failing example
(insertion order follows the traversal order of the component). -/
def exSt : List (Nat × BallState ℚ) :=
  [ (1, ⟨⟨7 / 4, 0, 0⟩, ⟨7 / 4, 0, 0⟩, 2⟩),
    (2, ⟨⟨-2, 0, 0⟩, ⟨-2, 0, 0⟩, 2⟩),
    (0, ⟨⟨0, 0, 0⟩, ⟨0, 0, 0⟩, 3⟩) ]

/-- The constraints collected for the failing example: the two bound
shafts and the tentative connection, all demanding distance 3. -/
def exCons : List (Constraint ℚ) :=
  [ ⟨0, 1, 3, some 10⟩, ⟨0, 2, 3, some 11⟩, ⟨1, 2, 3, none⟩ ]

end MagnetGame

namespace MagnetGame

variable {K : Type} [LinearOrderedField K]

/-- C1: when `solveConstraints` fails, no ball is touched: positions are
written only by `applyPlan`, which runs only after planning and
validation both succeed, and the failure paths return the ball store
unchanged (bit for bit). -/
theorem solveConstraints_fail_preserves_balls (sqrt : K → K)
    (rng2 : Nat → Nat → Vec3 K) (w : World K) (sourceId shaftId targetId : Nat)
    (h : (solveConstraints sqrt rng2 w sourceId shaftId targetId).1 = false) :
    (solveConstraints sqrt rng2 w sourceId shaftId targetId).2.balls = w.balls := by
  rw [solveConstraints.eq_def] at h ⊢
  split
  · next newShaft sourceBall targetBall heq1 heq2 heq3 =>
    simp only [heq1, heq2, heq3] at h
    split at h
    · next hvalid =>
      split at h
      · simp at h
      · next hval => rw [if_pos hvalid, if_neg hval]; rfl
    · next hvalid => rw [if_neg hvalid]; rfl
  · rfl

/-- C9 (amended): a failed connection attempt leaves every ball and every
shaft binding unchanged, but the tentative shaft's start-direction hint
has already been overwritten with the normalised source-to-target
direction — the resulting world is exactly the input world after that
one `setStartDirection` call. -/
theorem solveConstraints_fail_world (sqrt : K → K)
    (rng2 : Nat → Nat → Vec3 K) (w : World K) (sourceId shaftId targetId : Nat)
    (newShaft : ShaftData K) (sourceBall targetBall : BallData K)
    (h1 : getShaft w shaftId = some newShaft)
    (h2 : getBall w sourceId = some sourceBall)
    (h3 : getBall w targetId = some targetBall)
    (h : (solveConstraints sqrt rng2 w sourceId shaftId targetId).1 = false) :
    (solveConstraints sqrt rng2 w sourceId shaftId targetId).2 =
      setStartDirection sqrt w shaftId
        (vnormalize sqrt (vsub targetBall.position sourceBall.position)) := by
  rw [solveConstraints.eq_def] at h ⊢
  rw [h1, h2, h3] at h ⊢
  simp only at h ⊢
  split at h
  · next hvalid =>
    split at h
    · simp at h
    · next hval => rw [if_pos hvalid, if_neg hval]
  · next hvalid => rw [if_neg hvalid]

theorem lookupState_setState (states : List (Nat × BallState K)) (i j : Nat)
    (f : BallState K → BallState K) :
    lookupState (setState states i f) j =
      if j = i then (lookupState states j).map f else lookupState states j := by
  induction states with
  | nil => simp [setState, lookupState]
  | cons p rest ih =>
    rcases p with ⟨k, v⟩
    simp only [setState, List.map_cons] at ih ⊢
    by_cases hki : k = i
    · subst hki
      by_cases hjk : j = k
      · subst hjk
        simp [lookupState, List.find?_cons_of_pos]
      · simp only [if_pos rfl]
        rw [lookupState, lookupState, List.find?_cons_of_neg _ (by simpa using fun h => hjk h.symm),
          List.find?_cons_of_neg _ (by simpa using fun h => hjk h.symm)]
        exact ih
    · by_cases hjk : j = k
      · subst hjk
        have hji : j ≠ i := fun hh => hki (hh ▸ rfl)
        simp [lookupState, List.find?_cons_of_pos, if_neg hki, if_neg hji]
      · rw [if_neg hki]
        rw [lookupState, lookupState, List.find?_cons_of_neg _ (by simpa using fun h => hjk h.symm),
          List.find?_cons_of_neg _ (by simpa using fun h => hjk h.symm)]
        exact ih

/-- C4: inside a pass, a constraint whose endpoints both have states,
whose working positions are not (near-)coincident, and whose absolute
error exceeds the tolerance moves the two endpoints along the normalised
direction from the first to the second by `error × 0.5 × w₁` and
oppositely by `error × 0.5 × w₂`, where `w₁` is the inverse-stiffness
weight `(1/m₁)/((1/m₁)+(1/m₂))` and `w₂ = 1 − w₁`; a constraint whose
error is within tolerance moves neither endpoint. -/
theorem applyConstraint_update_rule (sqrt : K → K) (rngv : Vec3 K)
    (states : List (Nat × BallState K)) (maxErr : K) (c : Constraint K)
    (s1 s2 : BallState K)
    (h1 : lookupState states c.ball1 = some s1)
    (h2 : lookupState states c.ball2 = some s2)
    (hne : c.ball1 ≠ c.ball2)
    (hm1 : 0 < s1.mass) (hm2 : 0 < s2.mass)
    (hnc : ¬ vnorm sqrt (vsub s2.newPosition s1.newPosition) < COINCIDENT_EPS) :
    (POSITION_TOLERANCE <
        |vnorm sqrt (vsub s2.newPosition s1.newPosition) - c.distance| →
      lookupState (applyConstraint sqrt rngv (states, maxErr) c).1 c.ball1 =
          some { s1 with
                 newPosition := vadd s1.newPosition
                   (vsmul ((vnorm sqrt (vsub s2.newPosition s1.newPosition) - c.distance) *
                       RELAXATION *
                       ((1 / s1.mass) / (1 / s1.mass + 1 / s2.mass)))
                     (vnormalize sqrt (vsub s2.newPosition s1.newPosition))) } ∧
      lookupState (applyConstraint sqrt rngv (states, maxErr) c).1 c.ball2 =
          some { s2 with
                 newPosition := vsub s2.newPosition
                   (vsmul ((vnorm sqrt (vsub s2.newPosition s1.newPosition) - c.distance) *
                       RELAXATION *
                       (1 - (1 / s1.mass) / (1 / s1.mass + 1 / s2.mass)))
                     (vnormalize sqrt (vsub s2.newPosition s1.newPosition))) } ∧
      ∀ j, j ≠ c.ball1 → j ≠ c.ball2 →
        lookupState (applyConstraint sqrt rngv (states, maxErr) c).1 j =
          lookupState states j) ∧
    (¬ POSITION_TOLERANCE <
        |vnorm sqrt (vsub s2.newPosition s1.newPosition) - c.distance| →
      (applyConstraint sqrt rngv (states, maxErr) c).1 = states) := by
  have hw2 : (1 / s2.mass) / (1 / s1.mass + 1 / s2.mass) =
      1 - (1 / s1.mass) / (1 / s1.mass + 1 / s2.mass) := by
    have hne1 : s1.mass ≠ 0 := ne_of_gt hm1
    have hne2 : s2.mass ≠ 0 := ne_of_gt hm2
    have ht : 1 / s1.mass + 1 / s2.mass ≠ 0 := by positivity
    field_simp
  have hbig : (applyConstraint sqrt rngv (states, maxErr) c).1 =
      if POSITION_TOLERANCE <
          |vnorm sqrt (vsub s2.newPosition s1.newPosition) - c.distance| then
        setState
          (setState states c.ball1 (fun s =>
            { s with
              newPosition := vadd s.newPosition
                (vsmul ((vnorm sqrt (vsub s2.newPosition s1.newPosition) - c.distance) * RELAXATION *
                    ((1 / s1.mass) / (1 / s1.mass + 1 / s2.mass)))
                  (vnormalize sqrt (vsub s2.newPosition s1.newPosition))) }))
          c.ball2 (fun s =>
            { s with
              newPosition := vsub s.newPosition
                (vsmul ((vnorm sqrt (vsub s2.newPosition s1.newPosition) - c.distance) * RELAXATION *
                    ((1 / s2.mass) / (1 / s1.mass + 1 / s2.mass)))
                  (vnormalize sqrt (vsub s2.newPosition s1.newPosition))) })
      else states := by
    rw [applyConstraint.eq_def]
    rw [h1, h2]
    simp only [if_neg hnc]
    rw [apply_ite Prod.fst]
  have hne' : c.ball2 ≠ c.ball1 := fun h => hne h.symm
  constructor
  · intro herr
    rw [hbig, if_pos herr]
    refine ⟨?_, ?_, ?_⟩
    · rw [lookupState_setState, if_neg hne, lookupState_setState, if_pos rfl, h1]
      rfl
    · rw [lookupState_setState, if_pos rfl, lookupState_setState, if_neg hne', h2]
      simp only [Option.map_some']
      rw [hw2]
    · intro j hj1 hj2
      rw [lookupState_setState, if_neg hj2, lookupState_setState, if_neg hj1]
  · intro herr
    rw [hbig, if_neg herr]

theorem upsert_key_comp (i j : Nat) (v : BallState K) :
    ((fun p : Nat × BallState K => p.1 == j) ∘
      (fun p : Nat × BallState K => if p.1 = i then (p.1, v) else p)) =
    (fun p : Nat × BallState K => p.1 == j) := by
  funext p
  by_cases hpi : p.1 = i <;> simp [hpi]

theorem lookupState_upsert_self (st : List (Nat × BallState K)) (i : Nat)
    (v : BallState K) : lookupState (upsertState st i v) i = some v := by
  unfold upsertState
  split
  · next hany =>
    rw [lookupState, List.find?_map, upsert_key_comp]
    rcases hfind : st.find? (fun p => p.1 == i) with _ | p
    · rw [List.find?_eq_none] at hfind
      rcases List.any_eq_true.mp hany with ⟨x, hx, hxi⟩
      exact absurd hxi (by simpa using hfind x hx)
    · rcases p with ⟨a, b⟩
      have hp : a = i := by simpa using List.find?_some hfind
      simp [hfind, hp]
  · next hany =>
    rw [lookupState, List.find?_append]
    have hnone : st.find? (fun p => p.1 == i) = none := by
      rw [List.find?_eq_none]
      intro x hx hxi
      exact hany (List.any_eq_true.mpr ⟨x, hx, hxi⟩)
    simp [hnone]

theorem lookupState_upsert_ne (st : List (Nat × BallState K)) (i j : Nat)
    (v : BallState K) (h : j ≠ i) :
    lookupState (upsertState st i v) j = lookupState st j := by
  unfold upsertState
  split
  · rw [lookupState, List.find?_map, upsert_key_comp]
    rcases hfind : st.find? (fun p => p.1 == j) with _ | p
    · simp [lookupState, hfind]
    · have hp : p.1 = j := by simpa using List.find?_some hfind
      have : ¬ p.1 = i := fun hh => h (hp ▸ hh)
      simp [lookupState, hfind, this]
  · rw [lookupState, List.find?_append]
    have hs : List.find? (fun p => p.1 == j) [(i, v)] = none := by
      rw [List.find?_cons_of_neg _ (by simpa using fun hh : i = j => h hh.symm)]
      rfl
    rw [hs]
    simp [lookupState]

theorem lookupState_buildAux (w : World K) (i : Nat) (ball : BallData K)
    (hi : getBall w i = some ball) (l : List Nat) :
    ∀ acc, lookupState
        (l.foldl (fun acc j =>
          match getBall w j with
          | none => acc
          | some b =>
            upsertState acc j
              ⟨b.position, b.position,
                1 + (((b.connectedShafts.filterMap (getShaft w)).filter
                  isFullyConnected).length : K)⟩) acc) i =
      if i ∈ l then
        some ⟨ball.position, ball.position,
          1 + (((ball.connectedShafts.filterMap (getShaft w)).filter
            isFullyConnected).length : K)⟩
      else lookupState acc i := by
  induction l with
  | nil => intro acc; simp
  | cons j l ih =>
    intro acc
    rw [List.foldl_cons]
    rw [ih]
    by_cases hil : i ∈ l
    · rw [if_pos hil, if_pos (List.mem_cons_of_mem _ hil)]
    · rw [if_neg hil]
      by_cases hij : i = j
      · subst hij
        rw [if_pos (List.mem_cons_self _ _), hi]
        exact lookupState_upsert_self ..
      · rw [if_neg (by simp [hij, hil])]
        rcases hj : getBall w j with _ | b
        · rfl
        · exact lookupState_upsert_ne _ _ _ _ hij

theorem lookupState_buildBallStates (w : World K) (allBalls : List Nat)
    (i : Nat) (ball : BallData K) (hi : getBall w i = some ball)
    (hmem : i ∈ allBalls) :
    lookupState (buildBallStates w allBalls) i =
      some ⟨ball.position, ball.position,
        1 + (((ball.connectedShafts.filterMap (getShaft w)).filter
          isFullyConnected).length : K)⟩ := by
  unfold buildBallStates
  rw [lookupState_buildAux w i ball hi allBalls [], if_pos hmem]

theorem applyConstraint_skel (sqrt : K → K) (rngv : Vec3 K)
    (acc : List (Nat × BallState K) × K) (c : Constraint K) (j : Nat) :
    (lookupState (applyConstraint sqrt rngv acc c).1 j).map
        (fun s => (s.originalPosition, s.mass)) =
      (lookupState acc.1 j).map (fun s => (s.originalPosition, s.mass)) := by
  rcases h1 : lookupState acc.1 c.ball1 with _ | s1
  · simp only [applyConstraint.eq_def, h1]
  · rcases h2 : lookupState acc.1 c.ball2 with _ | s2
    · simp only [applyConstraint.eq_def, h1, h2]
    · simp only [applyConstraint.eq_def, h1, h2]
      split_ifs with hc herr <;>
        first
        | rfl
        | (rw [lookupState_setState, lookupState_setState]
           split_ifs <;>
             first
             | rfl
             | (simp only [Option.map_map]
                exact Option.map_congr (fun a _ => rfl)))

theorem runPass_skel (sqrt : K → K) (rngp : Nat → Vec3 K)
    (constraints : List (Constraint K)) (states : List (Nat × BallState K))
    (j : Nat) :
    (lookupState (runPass sqrt rngp constraints states).1 j).map
        (fun s => (s.originalPosition, s.mass)) =
      (lookupState states j).map (fun s => (s.originalPosition, s.mass)) := by
  unfold runPass
  suffices h : ∀ (l : List (Nat × Constraint K)) (acc : List (Nat × BallState K) × K),
      (lookupState (l.foldl (fun a ic => applyConstraint sqrt (rngp ic.1) a ic.2) acc).1 j).map
          (fun s => (s.originalPosition, s.mass)) =
        (lookupState acc.1 j).map (fun s => (s.originalPosition, s.mass)) by
    exact h constraints.enum (states, 0)
  intro l
  induction l with
  | nil => intro acc; rfl
  | cons x xs ih =>
    intro acc
    rw [List.foldl_cons, ih]
    exact applyConstraint_skel sqrt (rngp x.1) acc x.2 j

theorem solveAux_skel (sqrt : K → K) (rng2 : Nat → Nat → Vec3 K)
    (constraints : List (Constraint K)) (j : Nat) :
    ∀ (fuel iter : Nat) (states : List (Nat × BallState K)) (lastErr : K),
      (lookupState (solveAux sqrt rng2 constraints fuel iter states lastErr).2 j).map
          (fun s => (s.originalPosition, s.mass)) =
        (lookupState states j).map (fun s => (s.originalPosition, s.mass)) := by
  intro fuel
  induction fuel with
  | zero => intro iter states lastErr; rfl
  | succ fuel ih =>
    intro iter states lastErr
    rw [solveAux]
    split
    · next h => exact runPass_skel sqrt (rng2 iter) constraints states j
    · next h => rw [ih]; exact runPass_skel sqrt (rng2 iter) constraints states j

theorem countBound_eq (w : World K) (l : List Nat) :
    ((l.filterMap (getShaft w)).filter isFullyConnected).length =
      (l.filter (boundShaft w)).length := by
  induction l with
  | nil => rfl
  | cons a l ih =>
    rcases ha : getShaft w a with _ | sh
    · simpa [List.filterMap_cons, ha, List.filter_cons, boundShaft] using ih
    · by_cases hf : isFullyConnected sh = true
      · simpa [List.filterMap_cons, ha, List.filter_cons, boundShaft, hf] using ih
      · simpa [List.filterMap_cons, ha, List.filter_cons, boundShaft, hf] using ih

/-- C6: for every ball of the affected set, the stiffness assigned by
`createPlan` (and still carried by the returned plan's state for that
ball) is `1 +` the number of fully-bound shafts incident to it; shafts
with an unbound end do not count.  (The duplicate-freeness hypothesis
makes the filtered-list length be exactly that number.) -/
theorem createPlan_mass (sqrt : K → K) (rng2 : Nat → Nat → Vec3 K)
    (w : World K) (sourceId targetId : Nat) (requiredDistance : K)
    (allBalls : List Nat) (i : Nat) (ball : BallData K)
    (hi : getBall w i = some ball) (hmem : i ∈ allBalls)
    (hnodup : ball.connectedShafts.Nodup) :
    ∃ st, lookupState
        (createPlan sqrt rng2 w sourceId targetId requiredDistance
          allBalls).ballStates i = some st ∧
      st.originalPosition = ball.position ∧
      st.mass = 1 + ((ball.connectedShafts.filter (boundShaft w)).length : K) := by
  have hskel := solveAux_skel sqrt rng2
    (collectConstraints w allBalls sourceId targetId requiredDistance) i
    MAX_ITERATIONS 0 (buildBallStates w allBalls) 0
  have hbuild := lookupState_buildBallStates w allBalls i ball hi hmem
  rw [hbuild] at hskel
  have hplan : (createPlan sqrt rng2 w sourceId targetId requiredDistance
      allBalls).ballStates =
      (solveAux sqrt rng2
        (collectConstraints w allBalls sourceId targetId requiredDistance)
        MAX_ITERATIONS 0 (buildBallStates w allBalls) 0).2 := rfl
  rw [hplan]
  rcases hl : lookupState (solveAux sqrt rng2
      (collectConstraints w allBalls sourceId targetId requiredDistance)
      MAX_ITERATIONS 0 (buildBallStates w allBalls) 0).2 i with _ | st
  · rw [hl] at hskel; simp at hskel
  · rw [hl] at hskel
    simp only [Option.map_some', Option.some.injEq, Prod.mk.injEq] at hskel
    exact ⟨st, rfl, hskel.1, by rw [hskel.2, countBound_eq]⟩

theorem solveAux_spec (sqrt : K → K) (rng2 : Nat → Nat → Vec3 K)
    (constraints : List (Constraint K)) (states : List (Nat × BallState K)) :
    ∀ (fuel iter : Nat) (st : List (Nat × BallState K)) (e : K),
      fuel + iter = MAX_ITERATIONS →
      st = passStates sqrt rng2 constraints states iter →
      (∀ j, j < iter → ¬ passErr sqrt rng2 constraints states j < POSITION_TOLERANCE) →
      (fuel = 0 → e = passErr sqrt rng2 constraints states (iter - 1) ∧ iter ≠ 0) →
      (solveAux sqrt rng2 constraints fuel iter st e).1.iterations ≤ MAX_ITERATIONS ∧
      ((solveAux sqrt rng2 constraints fuel iter st e).1.iterations < MAX_ITERATIONS →
        (solveAux sqrt rng2 constraints fuel iter st e).1.converged = true ∧
        (solveAux sqrt rng2 constraints fuel iter st e).1.maxError =
          passErr sqrt rng2 constraints states
            (solveAux sqrt rng2 constraints fuel iter st e).1.iterations ∧
        (solveAux sqrt rng2 constraints fuel iter st e).1.maxError < POSITION_TOLERANCE ∧
        ∀ j, j < (solveAux sqrt rng2 constraints fuel iter st e).1.iterations →
          ¬ passErr sqrt rng2 constraints states j < POSITION_TOLERANCE) ∧
      ((solveAux sqrt rng2 constraints fuel iter st e).1.iterations = MAX_ITERATIONS →
        (solveAux sqrt rng2 constraints fuel iter st e).1.maxError =
          passErr sqrt rng2 constraints states (MAX_ITERATIONS - 1) ∧
        (∀ j, j < MAX_ITERATIONS →
          ¬ passErr sqrt rng2 constraints states j < POSITION_TOLERANCE) ∧
        ((solveAux sqrt rng2 constraints fuel iter st e).1.converged = true ↔
          (solveAux sqrt rng2 constraints fuel iter st e).1.maxError <
            POSITION_TOLERANCE * 100)) := by
  intro fuel
  induction fuel with
  | zero =>
    intro iter st e hsum hst hprev h0
    obtain ⟨he, hiter0⟩ := h0 rfl
    have hiterM : iter = MAX_ITERATIONS := by omega
    subst hiterM
    simp only [solveAux]
    exact ⟨le_refl _, fun habs => absurd habs (lt_irrefl _),
      fun _ => ⟨he, hprev, by simp [decide_eq_true_iff]⟩⟩
  | succ fuel ih =>
    intro iter st e hsum hst hprev h0
    have hiterlt : iter < MAX_ITERATIONS := by omega
    rw [solveAux]
    have hp1 : (runPass sqrt (rng2 iter) constraints st).1 =
        passStates sqrt rng2 constraints states (iter + 1) := by
      rw [hst]; rfl
    have hp2 : (runPass sqrt (rng2 iter) constraints st).2 =
        passErr sqrt rng2 constraints states iter := by
      rw [hst]; rfl
    split
    · next hconv =>
      rw [hp2] at hconv
      dsimp only
      exact ⟨le_of_lt hiterlt, fun _ => ⟨rfl, hp2.symm ▸ rfl, by rw [hp2]; exact hconv, hprev⟩,
        fun habs => absurd habs (Nat.ne_of_lt hiterlt)⟩
    · next hconv =>
      rw [hp2] at hconv
      have hprev' : ∀ j, j < iter + 1 →
          ¬ passErr sqrt rng2 constraints states j < POSITION_TOLERANCE := by
        intro j hj
        rcases Nat.lt_succ_iff_lt_or_eq.mp hj with hj' | hj'
        · exact hprev j hj'
        · subst hj'; exact hconv
      have := ih (iter + 1) (runPass sqrt (rng2 iter) constraints st).1
        (runPass sqrt (rng2 iter) constraints st).2 (by omega) hp1 hprev'
        (fun _ => ⟨by simpa using hp2, by omega⟩)
      exact this

/-- C2: the iterative solver runs at most 500 passes; if it stops early
at pass `i` it reports converged with the recorded max error of that
pass, which is below the tolerance, while every earlier pass stayed at or
above it (so it stops as soon as the error drops below tolerance); if the
budget is exhausted, every pass stayed at or above tolerance, the
reported error is the final pass's, and it reports converged exactly when
that error is below the looser `100 ×` threshold. -/
theorem solve_spec (sqrt : K → K) (rng2 : Nat → Nat → Vec3 K)
    (states : List (Nat × BallState K)) (constraints : List (Constraint K)) :
    (solve sqrt rng2 states constraints).1.iterations ≤ MAX_ITERATIONS ∧
    ((solve sqrt rng2 states constraints).1.iterations < MAX_ITERATIONS →
      (solve sqrt rng2 states constraints).1.converged = true ∧
      (solve sqrt rng2 states constraints).1.maxError =
        passErr sqrt rng2 constraints states
          (solve sqrt rng2 states constraints).1.iterations ∧
      (solve sqrt rng2 states constraints).1.maxError < POSITION_TOLERANCE ∧
      ∀ j, j < (solve sqrt rng2 states constraints).1.iterations →
        ¬ passErr sqrt rng2 constraints states j < POSITION_TOLERANCE) ∧
    ((solve sqrt rng2 states constraints).1.iterations = MAX_ITERATIONS →
      (solve sqrt rng2 states constraints).1.maxError =
        passErr sqrt rng2 constraints states (MAX_ITERATIONS - 1) ∧
      (∀ j, j < MAX_ITERATIONS →
        ¬ passErr sqrt rng2 constraints states j < POSITION_TOLERANCE) ∧
      ((solve sqrt rng2 states constraints).1.converged = true ↔
        (solve sqrt rng2 states constraints).1.maxError <
          POSITION_TOLERANCE * 100)) := by
  exact solveAux_spec sqrt rng2 constraints states MAX_ITERATIONS 0 states 0
    (by omega) rfl (fun j hj => absurd hj (Nat.not_lt_zero j))
    (fun h0 => absurd h0 (by simp [MAX_ITERATIONS]))

theorem collect_fold_flat (w : World K) (allBalls : List Nat) :
    ∀ acc : List (Constraint K) × List Nat,
      allBalls.foldl (fun acc i =>
        match getBall w i with
        | none => acc
        | some ball => ball.connectedShafts.foldl (collectStep w) acc) acc =
      (incidentSids w allBalls).foldl (collectStep w) acc := by
  induction allBalls with
  | nil => intro acc; rfl
  | cons i rest ih =>
    intro acc
    rw [List.foldl_cons, incidentSids, List.flatMap_cons, List.foldl_append, ih]
    rcases h : getBall w i with _ | ball <;> simp [h, incidentSids]

theorem collectStep_fold_spec (w : World K) (sids : List Nat) :
    ∀ (cs : List (Constraint K)) (seen : List Nat),
      (∀ sid, (cs.filter (fun c => c.shaft = some sid)).length =
        if sid ∈ seen then 1 else 0) →
      (∀ c ∈ cs, ∃ sid sh, c.shaft = some sid ∧ sid ∈ seen ∧
        getShaft w sid = some sh ∧ isFullyConnected sh = true ∧
        sh.startBall = some c.ball1 ∧ sh.endBall = some c.ball2 ∧
        c.distance = sh.length + 2 * BALL_RADIUS) →
      (∀ sid ∈ seen, boundShaft w sid = true) →
      (∀ sid, sid ∈ (sids.foldl (collectStep w) (cs, seen)).2 ↔
          sid ∈ seen ∨ (sid ∈ sids ∧ boundShaft w sid = true)) ∧
      (∀ sid, ((sids.foldl (collectStep w) (cs, seen)).1.filter
          (fun c => c.shaft = some sid)).length =
        if sid ∈ (sids.foldl (collectStep w) (cs, seen)).2 then 1 else 0) ∧
      (∀ c ∈ (sids.foldl (collectStep w) (cs, seen)).1, ∃ sid sh,
        c.shaft = some sid ∧ sid ∈ (sids.foldl (collectStep w) (cs, seen)).2 ∧
        getShaft w sid = some sh ∧ isFullyConnected sh = true ∧
        sh.startBall = some c.ball1 ∧ sh.endBall = some c.ball2 ∧
        c.distance = sh.length + 2 * BALL_RADIUS) ∧
      (∀ sid ∈ (sids.foldl (collectStep w) (cs, seen)).2, boundShaft w sid = true) ∧
      ((sids.foldl (collectStep w) (cs, seen)).1.filter
          (fun c => c.shaft = none)) = cs.filter (fun c => c.shaft = none) := by
  induction sids with
  | nil =>
    intro cs seen inv1 inv3 inv2
    exact ⟨fun sid => by simp, inv1, fun c hc => by
      obtain ⟨sid, sh, h⟩ := inv3 c hc; exact ⟨sid, sh, h⟩, inv2, rfl⟩
  | cons s rest ih =>
    intro cs seen inv1 inv3 inv2
    rw [List.foldl_cons]
    by_cases hseen : s ∈ seen
    · have hstep : collectStep w (cs, seen) s = (cs, seen) := by
        simp only [collectStep, if_pos hseen]
      rw [hstep]
      obtain ⟨g1, g2, g3, g4, g5⟩ := ih cs seen inv1 inv3 inv2
      refine ⟨fun sid => ?_, g2, g3, g4, g5⟩
      rw [g1]
      constructor
      · rintro (h | h)
        · exact Or.inl h
        · exact Or.inr ⟨List.mem_cons_of_mem _ h.1, h.2⟩
      · rintro (h | ⟨hm, hb⟩)
        · exact Or.inl h
        · rcases List.mem_cons.mp hm with rfl | hm'
          · exact Or.inl hseen
          · exact Or.inr ⟨hm', hb⟩
    · rcases hsh : getShaft w s with _ | sh
      · have hstep : collectStep w (cs, seen) s = (cs, seen) := by
          simp only [collectStep, if_neg hseen, hsh]
        rw [hstep]
        have hnb : boundShaft w s = false := by simp [boundShaft, hsh]
        obtain ⟨g1, g2, g3, g4, g5⟩ := ih cs seen inv1 inv3 inv2
        refine ⟨fun sid => ?_, g2, g3, g4, g5⟩
        rw [g1]
        constructor
        · rintro (h | h)
          · exact Or.inl h
          · exact Or.inr ⟨List.mem_cons_of_mem _ h.1, h.2⟩
        · rintro (h | ⟨hm, hb⟩)
          · exact Or.inl h
          · rcases List.mem_cons.mp hm with rfl | hm'
            · rw [hnb] at hb; exact absurd hb (by simp)
            · exact Or.inr ⟨hm', hb⟩
      · rcases hstart : sh.startBall with _ | a
        · have hstep : collectStep w (cs, seen) s = (cs, seen) := by
            simp only [collectStep, if_neg hseen, hsh, hstart]
          rw [hstep]
          have hnb : boundShaft w s = false := by
            simp [boundShaft, hsh, isFullyConnected, hstart]
          obtain ⟨g1, g2, g3, g4, g5⟩ := ih cs seen inv1 inv3 inv2
          refine ⟨fun sid => ?_, g2, g3, g4, g5⟩
          rw [g1]
          constructor
          · rintro (h | h)
            · exact Or.inl h
            · exact Or.inr ⟨List.mem_cons_of_mem _ h.1, h.2⟩
          · rintro (h | ⟨hm, hb⟩)
            · exact Or.inl h
            · rcases List.mem_cons.mp hm with rfl | hm'
              · rw [hnb] at hb; exact absurd hb (by simp)
              · exact Or.inr ⟨hm', hb⟩
        · rcases hend : sh.endBall with _ | b
          · have hstep : collectStep w (cs, seen) s = (cs, seen) := by
              simp only [collectStep, if_neg hseen, hsh, hstart, hend]
            rw [hstep]
            have hnb : boundShaft w s = false := by
              simp [boundShaft, hsh, isFullyConnected, hend]
            obtain ⟨g1, g2, g3, g4, g5⟩ := ih cs seen inv1 inv3 inv2
            refine ⟨fun sid => ?_, g2, g3, g4, g5⟩
            rw [g1]
            constructor
            · rintro (h | h)
              · exact Or.inl h
              · exact Or.inr ⟨List.mem_cons_of_mem _ h.1, h.2⟩
            · rintro (h | ⟨hm, hb⟩)
              · exact Or.inl h
              · rcases List.mem_cons.mp hm with rfl | hm'
                · rw [hnb] at hb; exact absurd hb (by simp)
                · exact Or.inr ⟨hm', hb⟩
          · -- the emit case
            have hstep : collectStep w (cs, seen) s =
                (cs ++ [⟨a, b, sh.length + 2 * BALL_RADIUS, some s⟩], seen ++ [s]) := by
              simp only [collectStep, if_neg hseen, hsh, hstart, hend]
            rw [hstep]
            have hfully : isFullyConnected sh = true := by
              simp [isFullyConnected, hstart, hend]
            have hbound : boundShaft w s = true := by
              simp [boundShaft, hsh, hfully]
            have inv1' : ∀ sid,
                ((cs ++ [(⟨a, b, sh.length + 2 * BALL_RADIUS, some s⟩ : Constraint K)]).filter
                  (fun c => c.shaft = some sid)).length =
                if sid ∈ seen ++ [s] then 1 else 0 := by
              intro sid
              rw [List.filter_append, List.length_append]
              by_cases hsds : sid = s
              · simp [hsds, inv1 s, hseen]
              · have hz : (([(⟨a, b, sh.length + 2 * BALL_RADIUS, some s⟩ : Constraint K)]).filter
                    (fun c => c.shaft = some sid)).length = 0 := by
                  simp only [List.filter_cons, List.filter_nil]
                  rw [if_neg ?hne]
                  · rfl
                  case hne =>
                    simp only [decide_eq_true_eq]
                    exact fun hh : some s = some sid =>
                      hsds (by injection hh with hh2; exact hh2.symm)
                rw [hz, inv1 sid]
                have hmem : (sid ∈ seen ++ [s]) ↔ sid ∈ seen := by
                  simp [List.mem_append, hsds]
                by_cases hs' : sid ∈ seen
                · rw [if_pos hs', if_pos (hmem.mpr hs'), Nat.add_zero]
                · rw [if_neg hs', if_neg (fun hh => hs' (hmem.mp hh)), Nat.add_zero]
            have inv3' : ∀ c ∈ cs ++ [(⟨a, b, sh.length + 2 * BALL_RADIUS, some s⟩ : Constraint K)],
                ∃ sid sh', c.shaft = some sid ∧ sid ∈ seen ++ [s] ∧
                  getShaft w sid = some sh' ∧ isFullyConnected sh' = true ∧
                  sh'.startBall = some c.ball1 ∧ sh'.endBall = some c.ball2 ∧
                  c.distance = sh'.length + 2 * BALL_RADIUS := by
              intro c hc
              rcases List.mem_append.mp hc with hc' | hc'
              · obtain ⟨sid, sh', h1, h2, h3⟩ := inv3 c hc'
                exact ⟨sid, sh', h1, List.mem_append_left _ h2, h3⟩
              · rcases List.mem_singleton.mp hc' with rfl
                exact ⟨s, sh, rfl, List.mem_append_right _ (List.mem_singleton.mpr rfl),
                  hsh, hfully, hstart, hend, rfl⟩
            have inv2' : ∀ sid ∈ seen ++ [s], boundShaft w sid = true := by
              intro sid hsid
              rcases List.mem_append.mp hsid with h' | h'
              · exact inv2 sid h'
              · rcases List.mem_singleton.mp h' with rfl
                exact hbound
            obtain ⟨g1, g2, g3, g4, g5⟩ := ih _ _ inv1' inv3' inv2'
            refine ⟨fun sid => ?_, g2, g3, g4, ?_⟩
            · rw [g1]
              constructor
              · rintro (h | h)
                · rcases List.mem_append.mp h with h' | h'
                  · exact Or.inl h'
                  · rcases List.mem_singleton.mp h' with rfl
                    exact Or.inr ⟨List.mem_cons_self _ _, hbound⟩
                · exact Or.inr ⟨List.mem_cons_of_mem _ h.1, h.2⟩
              · rintro (h | ⟨hm, hb⟩)
                · exact Or.inl (List.mem_append_left _ h)
                · rcases List.mem_cons.mp hm with rfl | hm'
                  · exact Or.inl (List.mem_append_right _ (List.mem_singleton.mpr rfl))
                  · exact Or.inr ⟨hm', hb⟩
            · rw [g5, List.filter_append]
              simp [List.filter]

theorem mem_incidentSids (w : World K) (allBalls : List Nat) (sid : Nat) :
    sid ∈ incidentSids w allBalls ↔
      ∃ i ∈ allBalls, ∃ ball, getBall w i = some ball ∧
        sid ∈ ball.connectedShafts := by
  unfold incidentSids
  rw [List.mem_flatMap]
  constructor
  · rintro ⟨i, hi, hmem⟩
    rcases hb : getBall w i with _ | ball
    · rw [hb] at hmem; simp at hmem
    · rw [hb] at hmem; exact ⟨i, hi, ball, hb, hmem⟩
  · rintro ⟨i, hi, ball, hb, hmem⟩
    exact ⟨i, hi, by rw [hb]; exact hmem⟩

/-- C5: `collectConstraints` emits, before the tentative constraint, one
constraint per fully-bound shaft incident to a ball of the set — each
carrying the shaft's endpoints and required distance `length + 2 × 0.5`,
and each such shaft counted exactly once no matter how many of its
endpoints appear — and appends exactly one constraint for the tentative
source–target pair with the caller-supplied distance as the last
element. -/
theorem collectConstraints_spec (w : World K) (allBalls : List Nat)
    (sourceId targetId : Nat) (requiredDistance : K) :
    collectConstraints w allBalls sourceId targetId requiredDistance ≠ [] ∧
    (collectConstraints w allBalls sourceId targetId requiredDistance).getLast? =
      some ⟨sourceId, targetId, requiredDistance, none⟩ ∧
    ((collectConstraints w allBalls sourceId targetId requiredDistance).filter
      (fun c => c.shaft = none)).length = 1 ∧
    (∀ c ∈ (collectConstraints w allBalls sourceId targetId
        requiredDistance).dropLast,
      ∃ sid sh, c.shaft = some sid ∧ getShaft w sid = some sh ∧
        isFullyConnected sh = true ∧ sh.startBall = some c.ball1 ∧
        sh.endBall = some c.ball2 ∧ c.distance = sh.length + 2 * BALL_RADIUS ∧
        ∃ i ∈ allBalls, ∃ ball, getBall w i = some ball ∧
          sid ∈ ball.connectedShafts) ∧
    (∀ sid, sid ∈ incidentSids w allBalls ↔
      ∃ i ∈ allBalls, ∃ ball, getBall w i = some ball ∧
        sid ∈ ball.connectedShafts) ∧
    (∀ sid, ((collectConstraints w allBalls sourceId targetId
        requiredDistance).filter (fun c => c.shaft = some sid)).length =
      if sid ∈ incidentSids w allBalls ∧ boundShaft w sid = true then 1
      else 0) := by
  obtain ⟨g1, g2, g3, g4, g5⟩ :=
    collectStep_fold_spec w (incidentSids w allBalls) [] [] (by simp)
      (fun c hc => absurd hc (List.not_mem_nil c)) (by simp)
  have hL : collectConstraints w allBalls sourceId targetId requiredDistance =
      ((incidentSids w allBalls).foldl (collectStep w) ([], [])).1 ++
        [⟨sourceId, targetId, requiredDistance, none⟩] := by
    unfold collectConstraints
    rw [collect_fold_flat w allBalls ([], [])]
  have hmemfold : ∀ sid,
      sid ∈ ((incidentSids w allBalls).foldl (collectStep w) ([], [])).2 ↔
        sid ∈ incidentSids w allBalls ∧ boundShaft w sid = true := by
    intro sid
    rw [g1 sid]
    simp
  refine ⟨by rw [hL]; simp, by rw [hL, List.getLast?_concat], ?_, ?_, 
    mem_incidentSids w allBalls, ?_⟩
  · rw [hL, List.filter_append, List.length_append, g5]
    simp
  · rw [hL, List.dropLast_concat]
    intro c hc
    obtain ⟨sid, sh, h1, h2, h3, h4, h5, h6, h7⟩ := g3 c hc
    exact ⟨sid, sh, h1, h3, h4, h5, h6, h7,
      (mem_incidentSids w allBalls sid).mp ((hmemfold sid).mp h2).1⟩
  · intro sid
    rw [hL, List.filter_append, List.length_append]
    have hz : (([(⟨sourceId, targetId, requiredDistance, none⟩ : Constraint K)]).filter
        (fun c => c.shaft = some sid)).length = 0 := by
      simp
    rw [hz, Nat.add_zero, g2 sid]
    by_cases hc : sid ∈ incidentSids w allBalls ∧ boundShaft w sid = true
    · rw [if_pos ((hmemfold sid).mpr hc), if_pos hc]
    · rw [if_neg (fun hh => hc ((hmemfold sid).mp hh)), if_neg hc]

theorem validate_fold_flat (sqrt : K → K) (w : World K)
    (states : List (Nat × BallState K)) (l : List (Nat × BallState K)) :
    ∀ acc : List Nat × K,
      l.foldl (fun acc p =>
        match getBall w p.1 with
        | none => acc
        | some ball => ball.connectedShafts.foldl (validateStep sqrt w states) acc) acc =
      (incidentSids w (l.map Prod.fst)).foldl (validateStep sqrt w states) acc := by
  induction l with
  | nil => intro acc; rfl
  | cons p rest ih =>
    intro acc
    rw [List.foldl_cons, List.map_cons, incidentSids, List.flatMap_cons,
      List.foldl_append, ih]
    rcases h : getBall w p.1 with _ | ball <;> simp [h, incidentSids]

theorem validateStep_fold_iff (sqrt : K → K) (w : World K)
    (states : List (Nat × BallState K)) (bound : K) (items : List Nat) :
    ∀ acc : List Nat × K,
      (∀ sid ∈ acc.1, ∀ e, validateErr sqrt w states sid = some e → e ≤ acc.2) →
      (bound < (items.foldl (validateStep sqrt w states) acc).2 ↔
        bound < acc.2 ∨ ∃ sid ∈ items, ∃ e,
          validateErr sqrt w states sid = some e ∧ bound < e) := by
  induction items with
  | nil =>
    intro acc hinv
    simp
  | cons s rest ih =>
    intro acc hinv
    rw [List.foldl_cons]
    by_cases hchk : s ∈ acc.1
    · have hstep : validateStep sqrt w states acc s = acc := by
        simp only [validateStep, if_pos hchk]
      rw [hstep, ih acc hinv]
      constructor
      · rintro (h | ⟨sid, hm, e, he, hbe⟩)
        · exact Or.inl h
        · exact Or.inr ⟨sid, List.mem_cons_of_mem _ hm, e, he, hbe⟩
      · rintro (h | ⟨sid, hm, e, he, hbe⟩)
        · exact Or.inl h
        · rcases List.mem_cons.mp hm with rfl | hm'
          · exact Or.inl (lt_of_lt_of_le hbe (hinv sid hchk e he))
          · exact Or.inr ⟨sid, hm', e, he, hbe⟩
    · have hres : ∀ acc', validateStep sqrt w states acc s = acc' →
          (acc' = acc ∧ validateErr sqrt w states s = none) ∨
          (∃ e, validateErr sqrt w states s = some e ∧
            acc' = (acc.1 ++ [s], max acc.2 e)) ∨
          (acc' = (acc.1 ++ [s], acc.2) ∧ validateErr sqrt w states s = none) := by
        intro acc' hacc
        rcases hsh : getShaft w s with _ | sh
        · left
          refine ⟨?_, by simp [validateErr, hsh]⟩
          rw [← hacc]
          simp only [validateStep, if_neg hchk, hsh]
        · by_cases hful : isFullyConnected sh = true
          · rcases hstart : sh.startBall with _ | a
            · exact absurd hful (by simp [isFullyConnected, hstart])
            · rcases hend : sh.endBall with _ | b
              · exact absurd hful (by simp [isFullyConnected, hend])
              · rcases hsa : lookupState states a with _ | sa
                · right; right
                  refine ⟨?_, by simp [validateErr, hsh, hful, hstart, hend, hsa]⟩
                  rw [← hacc]
                  simp only [validateStep, if_neg hchk, hsh, hful, if_true,
                    hstart, hend, hsa]
                · rcases hsb : lookupState states b with _ | sb
                  · right; right
                    refine ⟨?_, by simp [validateErr, hsh, hful, hstart, hend, hsa, hsb]⟩
                    rw [← hacc]
                    simp only [validateStep, if_neg hchk, hsh, hful, if_true,
                      hstart, hend, hsa, hsb]
                  · right; left
                    refine ⟨|dist3 sqrt sa.newPosition sb.newPosition -
                        (sh.length + 2 * BALL_RADIUS)|,
                      by simp [validateErr, hsh, hful, hstart, hend, hsa, hsb], ?_⟩
                    rw [← hacc]
                    simp only [validateStep, if_neg hchk, hsh, hful, if_true,
                      hstart, hend, hsa, hsb]
          · left
            refine ⟨?_, by simp [validateErr, hsh, hful]⟩
            rw [← hacc]
            simp [validateStep, if_neg hchk, hsh, hful]
      rcases hres _ rfl with ⟨hacc', hnone⟩ | ⟨e, hsome, hacc'⟩ | ⟨hacc', hnone⟩
      · rw [hacc', ih acc hinv]
        constructor
        · rintro (h | ⟨sid, hm, e, he, hbe⟩)
          · exact Or.inl h
          · exact Or.inr ⟨sid, List.mem_cons_of_mem _ hm, e, he, hbe⟩
        · rintro (h | ⟨sid, hm, e, he, hbe⟩)
          · exact Or.inl h
          · rcases List.mem_cons.mp hm with rfl | hm'
            · rw [hnone] at he; cases he
            · exact Or.inr ⟨sid, hm', e, he, hbe⟩
      · have hinv' : ∀ sid ∈ (acc.1 ++ [s] : List Nat), ∀ e',
            validateErr sqrt w states sid = some e' → e' ≤ max acc.2 e := by
          intro sid hm e' he'
          rcases List.mem_append.mp hm with hm' | hm'
          · exact le_trans (hinv sid hm' e' he') (le_max_left _ _)
          · rcases List.mem_singleton.mp hm' with rfl
            rw [hsome] at he'
            cases he'
            exact le_max_right _ _
        rw [hacc', ih _ hinv']
        simp only [lt_max_iff]
        constructor
        · rintro ((h | h) | ⟨sid, hm, e', he', hbe⟩)
          · exact Or.inl h
          · exact Or.inr ⟨s, List.mem_cons_self _ _, e, hsome, h⟩
          · exact Or.inr ⟨sid, List.mem_cons_of_mem _ hm, e', he', hbe⟩
        · rintro (h | ⟨sid, hm, e', he', hbe⟩)
          · exact Or.inl (Or.inl h)
          · rcases List.mem_cons.mp hm with rfl | hm'
            · rw [hsome] at he'
              cases he'
              exact Or.inl (Or.inr hbe)
            · exact Or.inr ⟨sid, hm', e', he', hbe⟩
      · have hinv' : ∀ sid ∈ (acc.1 ++ [s] : List Nat), ∀ e',
            validateErr sqrt w states sid = some e' → e' ≤ acc.2 := by
          intro sid hm e' he'
          rcases List.mem_append.mp hm with hm' | hm'
          · exact hinv sid hm' e' he'
          · rcases List.mem_singleton.mp hm' with rfl
            rw [hnone] at he'
            cases he'
        rw [hacc', ih _ hinv']
        constructor
        · rintro (h | ⟨sid, hm, e', he', hbe⟩)
          · exact Or.inl h
          · exact Or.inr ⟨sid, List.mem_cons_of_mem _ hm, e', he', hbe⟩
        · rintro (h | ⟨sid, hm, e', he', hbe⟩)
          · exact Or.inl h
          · rcases List.mem_cons.mp hm with rfl | hm'
            · rw [hnone] at he'; cases he'
            · exact Or.inr ⟨sid, hm', e', he', hbe⟩

theorem validateErr_iff (sqrt : K → K) (w : World K)
    (states : List (Nat × BallState K)) (sid : Nat) (bound : K) :
    (∃ e, validateErr sqrt w states sid = some e ∧ bound < e) ↔
      ∃ sh, getShaft w sid = some sh ∧ isFullyConnected sh = true ∧
        ∃ a b sa sb, sh.startBall = some a ∧ sh.endBall = some b ∧
          lookupState states a = some sa ∧ lookupState states b = some sb ∧
          bound < |dist3 sqrt sa.newPosition sb.newPosition -
            (sh.length + 2 * BALL_RADIUS)| := by
  unfold validateErr
  rcases hsh : getShaft w sid with _ | sh
  · simp
  · by_cases hful : isFullyConnected sh = true
    · rcases hstart : sh.startBall with _ | a
      · exact absurd hful (by simp [isFullyConnected, hstart])
      · rcases hend : sh.endBall with _ | b
        · exact absurd hful (by simp [isFullyConnected, hend])
        · rcases hsa : lookupState states a with _ | sa
          · simp [hful, hstart, hend, hsa]
          · rcases hsb : lookupState states b with _ | sb
            · simp [hful, hstart, hend, hsa, hsb]
            · simp [hful, hstart, hend, hsa, hsb]
    · simp [hful]

/-- C3: assuming the plan has states for the source and the target,
`validatePlan` rejects exactly when the tentative connection's error
against the candidate positions exceeds `POSITION_TOLERANCE × 100`, or
some fully-bound shaft incident to a planned ball, with both endpoint
states present, has error against the candidate positions exceeding the
same bound. -/
theorem validatePlan_spec (sqrt : K → K) (w : World K)
    (plan : ConnectionPlan K) (newShaftLength : K) (sourceId targetId : Nat)
    (ss ts : BallState K)
    (hs : lookupState plan.ballStates sourceId = some ss)
    (ht : lookupState plan.ballStates targetId = some ts) :
    validatePlan sqrt w plan newShaftLength sourceId targetId = false ↔
      (POSITION_TOLERANCE * 100 <
        |dist3 sqrt ss.newPosition ts.newPosition -
          (newShaftLength + 2 * BALL_RADIUS)| ∨
       ∃ sid sh, getShaft w sid = some sh ∧ isFullyConnected sh = true ∧
         (∃ p ∈ plan.ballStates, ∃ ball, getBall w p.1 = some ball ∧
           sid ∈ ball.connectedShafts) ∧
         ∃ a b sa sb, sh.startBall = some a ∧ sh.endBall = some b ∧
           lookupState plan.ballStates a = some sa ∧
           lookupState plan.ballStates b = some sb ∧
           POSITION_TOLERANCE * 100 <
             |dist3 sqrt sa.newPosition sb.newPosition -
               (sh.length + 2 * BALL_RADIUS)|) := by
  have hpos : ¬ POSITION_TOLERANCE * 100 < (0 : K) := by
    rw [not_lt]
    unfold POSITION_TOLERANCE
    positivity
  have hmemconv : ∀ sid, sid ∈ incidentSids w (plan.ballStates.map Prod.fst) ↔
      ∃ p ∈ plan.ballStates, ∃ ball, getBall w p.1 = some ball ∧
        sid ∈ ball.connectedShafts := by
    intro sid
    rw [mem_incidentSids]
    constructor
    · rintro ⟨i, hi, ball, hb, hmem⟩
      rcases List.mem_map.mp hi with ⟨p, hp, rfl⟩
      exact ⟨p, hp, ball, hb, hmem⟩
    · rintro ⟨p, hp, ball, hb, hmem⟩
      exact ⟨p.1, List.mem_map.mpr ⟨p, hp, rfl⟩, ball, hb, hmem⟩
  rw [validatePlan.eq_def]
  simp only [hs, ht]
  have hfoldflat := validate_fold_flat sqrt w plan.ballStates plan.ballStates
    (([], 0) : List Nat × K)
  have hfold := validateStep_fold_iff sqrt w plan.ballStates
    (POSITION_TOLERANCE * 100) (incidentSids w (plan.ballStates.map Prod.fst))
    (([], 0) : List Nat × K) (by intro sid hsid e he; simp at hsid)
  by_cases h1 : POSITION_TOLERANCE * 100 <
      |dist3 sqrt ss.newPosition ts.newPosition -
        (newShaftLength + 2 * BALL_RADIUS)|
  · rw [if_pos h1]
    simp only [eq_self_iff_true, true_iff]
    exact Or.inl h1
  · rw [if_neg h1]
    rw [hfoldflat]
    by_cases h2 : POSITION_TOLERANCE * 100 <
        ((incidentSids w (plan.ballStates.map Prod.fst)).foldl
          (validateStep sqrt w plan.ballStates) (([], 0) : List Nat × K)).2
    · rw [if_pos h2]
      simp only [eq_self_iff_true, true_iff]
      rcases hfold.mp h2 with hz | ⟨sid, hmem, e, he, hbe⟩
      · exact absurd hz hpos
      · refine Or.inr ?_
        obtain ⟨sh, hsh, hful, a, b, sa, sb, h3, h4, h5, h6, h7⟩ :=
          (validateErr_iff sqrt w plan.ballStates sid
            (POSITION_TOLERANCE * 100)).mp ⟨e, he, hbe⟩
        exact ⟨sid, sh, hsh, hful, (hmemconv sid).mp hmem,
          a, b, sa, sb, h3, h4, h5, h6, h7⟩
    · rw [if_neg h2]
      constructor
      · intro habs; exact absurd habs (by simp)
      · rintro (h | ⟨sid, sh, hsh, hful, hmem, a, b, sa, sb, h3, h4, h5, h6, h7⟩)
        · exact absurd h h1
        · exact absurd (hfold.mpr (Or.inr ⟨sid, (hmemconv sid).mpr hmem,
            (validateErr_iff sqrt w plan.ballStates sid
              (POSITION_TOLERANCE * 100)).mpr
              ⟨sh, hsh, hful, a, b, sa, sb, h3, h4, h5, h6, h7⟩⟩)) h2

theorem addConnectedShaft_nodup (l : List Nat) (sid : Nat) (h : l.Nodup) :
    (addConnectedShaft l sid).Nodup := by
  unfold addConnectedShaft
  split
  · exact h
  · next hmem =>
    exact List.Nodup.append h (List.nodup_singleton sid)
      (fun a ha hb => hmem (by rcases List.mem_singleton.mp hb with rfl; exact ha))

theorem removeConnectedShaft_nodup (l : List Nat) (sid : Nat) (h : l.Nodup) :
    (removeConnectedShaft l sid).Nodup := h.erase sid

theorem ShaftListsNodup_mapBall (w : World K) (i : Nat)
    (f : BallData K → BallData K)
    (hf : ∀ b, b.connectedShafts.Nodup → (f b).connectedShafts.Nodup)
    (h : ShaftListsNodup w) : ShaftListsNodup (mapBall w i f) := by
  intro p hp
  rcases List.mem_map.mp hp with ⟨q, hq, rfl⟩
  by_cases hqi : q.1 = i
  · simpa [hqi] using hf q.2 (h q hq)
  · simpa [hqi] using h q hq

theorem ShaftListsNodup_mapShaft (w : World K) (sid : Nat)
    (f : ShaftData K → ShaftData K) (h : ShaftListsNodup w) :
    ShaftListsNodup (mapShaft w sid f) := h

theorem ShaftListsNodup_ballAddShaft (w : World K) (i sid : Nat)
    (h : ShaftListsNodup w) : ShaftListsNodup (ballAddShaft w i sid) :=
  ShaftListsNodup_mapBall w i _
    (fun b hb => addConnectedShaft_nodup b.connectedShafts sid hb) h

theorem ShaftListsNodup_ballRemoveShaft (w : World K) (i sid : Nat)
    (h : ShaftListsNodup w) : ShaftListsNodup (ballRemoveShaft w i sid) :=
  ShaftListsNodup_mapBall w i _
    (fun b hb => removeConnectedShaft_nodup b.connectedShafts sid hb) h

theorem ShaftListsNodup_applyOp (sqrt : K → K) (w : World K) (op : Op K)
    (h : ShaftListsNodup w) : ShaftListsNodup (applyOp sqrt w op) := by
  rcases op with ⟨b, sid⟩ | ⟨b, sid⟩ | ⟨sid, b, cp⟩ | ⟨sid, b⟩ | sid | sid | sid
  · exact ShaftListsNodup_ballAddShaft w b sid h
  · exact ShaftListsNodup_ballRemoveShaft w b sid h
  · show ShaftListsNodup (attachToStart sqrt w sid b cp)
    unfold attachToStart
    have h1 := ShaftListsNodup_ballAddShaft
      (mapShaft w sid (fun sh => { sh with startBall := some b })) b sid
      (ShaftListsNodup_mapShaft w sid (fun sh => { sh with startBall := some b }) h)
    rcases cp with _ | v
    · exact h1
    · rcases hb : getBall w b with _ | ball
      · simp only [hb]
        exact h1
      · simp only [hb]
        exact ShaftListsNodup_mapShaft _ sid _ h1
  · exact ShaftListsNodup_ballAddShaft (mapShaft w sid _) b sid
      (ShaftListsNodup_mapShaft w sid _ h)
  · show ShaftListsNodup (disconnect w sid)
    unfold disconnect
    rcases hsh : getShaft w sid with _ | sh
    · exact h
    · simp only
      rcases hst : sh.startBall with _ | b <;> rcases hen : sh.endBall with _ | e <;>
          simp only [hst, hen]
      · exact h
      · exact ShaftListsNodup_mapShaft _ sid _
          (ShaftListsNodup_ballRemoveShaft w e sid h)
      · exact ShaftListsNodup_mapShaft _ sid _
          (ShaftListsNodup_ballRemoveShaft w b sid h)
      · exact ShaftListsNodup_mapShaft _ sid _
          (ShaftListsNodup_ballRemoveShaft _ e sid
            (ShaftListsNodup_mapShaft _ sid _
              (ShaftListsNodup_ballRemoveShaft w b sid h)))
  · show ShaftListsNodup (disconnectStart w sid)
    unfold disconnectStart
    rcases hsh : getShaft w sid with _ | sh
    · exact h
    · simp only
      rcases hst : sh.startBall with _ | b
      · exact h
      · rcases hen : sh.endBall with _ | e <;> simp only [hst, hen]
        · exact ShaftListsNodup_mapShaft _ sid _
            (ShaftListsNodup_ballRemoveShaft w b sid h)
        · exact ShaftListsNodup_mapShaft _ sid _
            (ShaftListsNodup_ballRemoveShaft w b sid h)
  · show ShaftListsNodup (disconnectEnd w sid)
    unfold disconnectEnd
    rcases hsh : getShaft w sid with _ | sh
    · exact h
    · simp only
      rcases hen : sh.endBall with _ | b <;> simp only [hen]
      · exact h
      · exact ShaftListsNodup_mapShaft _ sid _
          (ShaftListsNodup_ballRemoveShaft w b sid h)

/-- C10: `addConnectedShaft` is idempotent when the shaft is already
listed, and every sequence of the `Ball`/`Shaft` mutation primitives
(add/remove incident shaft, attach to either end, and the three
disconnect operations) preserves duplicate-freeness of every ball's
incident-shaft list. -/
theorem connectedShafts_nodup_invariant (sqrt : K → K) :
    (∀ (l : List Nat) (sid : Nat), sid ∈ l → addConnectedShaft l sid = l) ∧
    (∀ (ops : List (Op K)) (w : World K), ShaftListsNodup w →
      ShaftListsNodup (applyOps sqrt ops w)) := by
  constructor
  · intro l sid h
    unfold addConnectedShaft
    rw [if_pos h]
  · intro ops
    induction ops with
    | nil => intro w h; exact h
    | cons op rest ih =>
      intro w h
      exact ih (applyOp sqrt w op) (ShaftListsNodup_applyOp sqrt w op h)

theorem popUnvisited_none_iff (visited : List Nat) (q : List Nat) :
    popUnvisited visited q = none ↔ ∀ b ∈ q, b ∈ visited := by
  induction q with
  | nil => simp [popUnvisited]
  | cons b rest ih =>
    unfold popUnvisited
    by_cases hb : b ∈ visited
    · rw [if_pos hb, ih]
      constructor
      · intro h x hx
        rcases List.mem_cons.mp hx with rfl | hx'
        · exact hb
        · exact h x hx'
      · intro h x hx
        exact h x (List.mem_cons_of_mem _ hx)
    · rw [if_neg hb]
      constructor
      · intro h; cases h
      · intro h
        exact absurd (h b (List.mem_cons_self _ _)) hb

theorem popUnvisited_some_spec (visited : List Nat) (q : List Nat)
    (b : Nat) (rest : List Nat)
    (h : popUnvisited visited q = some (b, rest)) :
    b ∈ q ∧ b ∉ visited ∧ (∀ x ∈ rest, x ∈ q) ∧
      (∀ x ∈ q, x ∉ visited → x = b ∨ x ∈ rest) := by
  induction q generalizing rest with
  | nil => cases h
  | cons c q' ih =>
    unfold popUnvisited at h
    by_cases hc : c ∈ visited
    · rw [if_pos hc] at h
      obtain ⟨h1, h2, h3, h4⟩ := ih rest h
      refine ⟨List.mem_cons_of_mem _ h1, h2,
        fun x hx => List.mem_cons_of_mem _ (h3 x hx), fun x hx hxv => ?_⟩
      rcases List.mem_cons.mp hx with rfl | hx'
      · exact absurd hc hxv
      · exact h4 x hx' hxv
    · rw [if_neg hc] at h
      injection h with h'
      injection h' with hb hrest
      subst hb; subst hrest
      exact ⟨List.mem_cons_self _ _, hc, fun x hx => List.mem_cons_of_mem _ hx,
        fun x hx hxv => (List.mem_cons.mp hx).imp id id⟩

theorem bfsAux_mono (w : World K) :
    ∀ (fuel : Nat) (visited queue : List Nat) (x : Nat),
      x ∈ visited → x ∈ bfsAux w fuel visited queue := by
  intro fuel
  induction fuel with
  | zero => intro visited queue x hx; exact hx
  | succ fuel ih =>
    intro visited queue x hx
    rw [bfsAux]
    rcases hp : popUnvisited visited queue with _ | ⟨b, rest⟩
    · exact hx
    · exact ih _ _ x (List.mem_append_left _ hx)

theorem getShaft_mem (w : World K) (sid : Nat) (sh : ShaftData K)
    (h : getShaft w sid = some sh) : (sid, sh) ∈ w.shafts := by
  unfold getShaft at h
  rcases hfind : w.shafts.find? (fun p => p.1 == sid) with _ | q
  · rw [hfind] at h; cases h
  · rw [hfind] at h
    simp only [Option.map_some', Option.some.injEq] at h
    have hkey : q.1 = sid := by simpa using List.find?_some hfind
    have hq : q = (sid, sh) := by
      rcases q with ⟨qk, qv⟩
      simp only at hkey h
      rw [hkey, h]
    rw [← hq]
    exact List.mem_of_find?_eq_some hfind

theorem getBall_mem (w : World K) (i : Nat) (ball : BallData K)
    (h : getBall w i = some ball) : (i, ball) ∈ w.balls := by
  unfold getBall at h
  rcases hfind : w.balls.find? (fun p => p.1 == i) with _ | q
  · rw [hfind] at h; cases h
  · rw [hfind] at h
    simp only [Option.map_some', Option.some.injEq] at h
    have hkey : q.1 = i := by simpa using List.find?_some hfind
    have hq : q = (i, ball) := by
      rcases q with ⟨qk, qv⟩
      simp only at hkey h
      rw [hkey, h]
    rw [← hq]
    exact List.mem_of_find?_eq_some hfind

theorem connectedOf_subset_allIds (w : World K) (b c : Nat)
    (h : c ∈ connectedOf w b) : c ∈ allIds w := by
  unfold connectedOf at h
  rcases hb : getBall w b with _ | ball
  · rw [hb] at h; cases h
  · simp only [hb] at h
    rcases List.mem_filterMap.mp h with ⟨sid, hsid, hv⟩
    rcases hsh : getShaft w sid with _ | sh
    · rw [hsh] at hv; cases hv
    · simp only [hsh] at hv
      have hmem : (sid, sh) ∈ w.shafts := getShaft_mem w sid sh hsh
      unfold allIds
      refine List.mem_append_right _ (List.mem_flatMap.mpr ⟨(sid, sh), hmem, ?_⟩)
      by_cases h1 : sh.startBall = some b
      · rw [if_pos h1] at hv
        refine List.mem_append_right _ ?_
        rw [hv]
        simp [Option.toList]
      · rw [if_neg h1] at hv
        by_cases h2 : sh.endBall = some b
        · rw [if_pos h2] at hv
          refine List.mem_append_left _ ?_
          rw [hv]
          simp [Option.toList]
        · rw [if_neg h2] at hv; cases hv

theorem bfsAux_absorb (w : World K) (U : Finset Nat)
    (hUconn : ∀ x y, y ∈ connectedOf w x → y ∈ U) :
    ∀ (fuel : Nat) (visited queue : List Nat),
      (∀ x ∈ queue, x ∈ U) →
      (U \ visited.toFinset).card ≤ fuel →
      (∀ v ∈ visited, ∀ c ∈ connectedOf w v, c ∈ visited ∨ c ∈ queue) →
      (∀ q ∈ queue, q ∈ bfsAux w fuel visited queue) ∧
      (∀ v ∈ bfsAux w fuel visited queue, ∀ c ∈ connectedOf w v,
        c ∈ bfsAux w fuel visited queue) := by
  intro fuel
  induction fuel with
  | zero =>
    intro visited queue hq hfuel hclosed
    have hsub : ∀ x ∈ U, x ∈ visited := by
      intro x hx
      by_contra hxv
      have : x ∈ U \ visited.toFinset := by
        rw [Finset.mem_sdiff]
        exact ⟨hx, fun hc => hxv (List.mem_toFinset.mp hc)⟩
      have hpos : 0 < (U \ visited.toFinset).card :=
        Finset.card_pos.mpr ⟨x, this⟩
      omega
    constructor
    · intro q hqq
      exact hsub q (hq q hqq)
    · intro v hv c hc
      rcases hclosed v hv c hc with h | h
      · exact h
      · exact hsub c (hq c h)
  | succ fuel ih =>
    intro visited queue hq hfuel hclosed
    rw [bfsAux]
    rcases hp : popUnvisited visited queue with _ | ⟨b, rest⟩
    · have hall := (popUnvisited_none_iff visited queue).mp hp
      constructor
      · intro q hqq; exact hall q hqq
      · intro v hv c hc
        rcases hclosed v hv c hc with h | h
        · exact h
        · exact hall c h
    · obtain ⟨hbq, hbv, hrest, hsplit⟩ := popUnvisited_some_spec visited queue b rest hp
      have hvt : (visited ++ [b]).toFinset = insert b visited.toFinset := by
        ext a
        simp [List.mem_toFinset, List.mem_append, or_comm]
      have hbU : b ∈ U := hq b hbq
      have hbsd : b ∈ U \ visited.toFinset := by
        rw [Finset.mem_sdiff]
        exact ⟨hbU, fun hc => hbv (List.mem_toFinset.mp hc)⟩
      have hsdiff : U \ (visited ++ [b]).toFinset = (U \ visited.toFinset).erase b := by
        rw [hvt]
        ext a
        simp only [Finset.mem_sdiff, Finset.mem_insert, Finset.mem_erase]
        constructor
        · rintro ⟨ha, hnb⟩
          exact ⟨fun hab => hnb (Or.inl hab), ha, fun hv' => hnb (Or.inr hv')⟩
        · rintro ⟨hab, ha, hnv⟩
          exact ⟨ha, fun hh => hh.elim hab hnv⟩
      have hfuel' : (U \ (visited ++ [b]).toFinset).card ≤ fuel := by
        rw [hsdiff]
        have := Finset.card_erase_lt_of_mem hbsd
        omega
      have hq' : ∀ x ∈ rest ++ (connectedOf w b).filter
          (fun c => decide (¬ (c ∈ visited ∨ c = b))), x ∈ U := by
        intro x hx
        rcases List.mem_append.mp hx with hx' | hx'
        · exact hq x (hrest x hx')
        · exact hUconn b x (List.mem_of_mem_filter hx')
      have hclosed' : ∀ v ∈ visited ++ [b], ∀ c ∈ connectedOf w v,
          c ∈ visited ++ [b] ∨ c ∈ rest ++ (connectedOf w b).filter
            (fun c => decide (¬ (c ∈ visited ∨ c = b))) := by
        intro v hv c hc
        rcases List.mem_append.mp hv with hv' | hv'
        · rcases hclosed v hv' c hc with h | h
          · exact Or.inl (List.mem_append_left _ h)
          · by_cases hcv : c ∈ visited
            · exact Or.inl (List.mem_append_left _ hcv)
            · rcases hsplit c h hcv with rfl | h'
              · exact Or.inl (List.mem_append_right _ (List.mem_singleton.mpr rfl))
              · exact Or.inr (List.mem_append_left _ h')
        · rcases List.mem_singleton.mp hv' with rfl
          by_cases hcv : c ∈ visited ∨ c = v
          · rcases hcv with h' | rfl
            · exact Or.inl (List.mem_append_left _ h')
            · exact Or.inl (List.mem_append_right _ (List.mem_singleton.mpr rfl))
          · refine Or.inr (List.mem_append_right _ ?_)
            rw [List.mem_filter]
            exact ⟨hc, by simpa using hcv⟩
      obtain ⟨ihq, ihc⟩ := ih (visited ++ [b]) _ hq' hfuel' hclosed'
      constructor
      · intro q hqq
        by_cases hqv : q ∈ visited
        · exact bfsAux_mono w fuel _ _ q (List.mem_append_left _ hqv)
        · rcases hsplit q hqq hqv with rfl | h'
          · exact bfsAux_mono w fuel _ _ q
              (List.mem_append_right _ (List.mem_singleton.mpr rfl))
          · exact ihq q (List.mem_append_left _ h')
      · exact ihc

theorem bfsAux_sound (w : World K) :
    ∀ (fuel : Nat) (visited queue : List Nat) (x : Nat),
      x ∈ bfsAux w fuel visited queue →
      x ∈ visited ∨ ∃ q ∈ queue, AdjReach w q x := by
  intro fuel
  induction fuel with
  | zero => intro visited queue x hx; exact Or.inl hx
  | succ fuel ih =>
    intro visited queue x hx
    rw [bfsAux] at hx
    rcases hp : popUnvisited visited queue with _ | ⟨b, rest⟩
    · rw [hp] at hx; exact Or.inl hx
    · rw [hp] at hx
      obtain ⟨hbq, hbv, hrest, hsplit⟩ := popUnvisited_some_spec visited queue b rest hp
      rcases ih _ _ x hx with hv | ⟨q, hqq, hreach⟩
      · rcases List.mem_append.mp hv with hv' | hv'
        · exact Or.inl hv'
        · rcases List.mem_singleton.mp hv' with rfl
          exact Or.inr ⟨x, hbq, Relation.ReflTransGen.refl⟩
      · rcases List.mem_append.mp hqq with hq' | hq'
        · exact Or.inr ⟨q, hrest q hq', hreach⟩
        · refine Or.inr ⟨b, hbq, ?_⟩
          exact Relation.ReflTransGen.trans
            (Relation.ReflTransGen.single (List.mem_of_mem_filter hq')) hreach

theorem wf_registered (w : World K) (hwf : wfCheck w = true) :
    ∀ q ∈ w.shafts, ∀ i : Nat,
      (q.2.startBall = some i ∨ q.2.endBall = some i) →
      ∃ ball, getBall w i = some ball ∧ q.1 ∈ ball.connectedShafts := by
  have h2 := (Bool.and_eq_true_iff.mp hwf).2
  rw [List.all_eq_true] at h2
  intro q hq i hi
  have hq2 := h2 q hq
  obtain ⟨hstart, hend⟩ := Bool.and_eq_true_iff.mp hq2
  rcases hi with hi | hi
  · simp only [hi] at hstart
    rcases hb : getBall w i with _ | ball
    · rw [hb] at hstart; cases hstart
    · simp only [hb] at hstart
      exact ⟨ball, rfl, by simpa using hstart⟩
  · simp only [hi] at hend
    rcases hb : getBall w i with _ | ball
    · rw [hb] at hend; cases hend
    · simp only [hb] at hend
      exact ⟨ball, rfl, by simpa using hend⟩

theorem boundLink_of_connectedOf (w : World K) (b c : Nat)
    (h : c ∈ connectedOf w b) : BoundLink w b c := by
  unfold connectedOf at h
  rcases hb : getBall w b with _ | ball
  · rw [hb] at h; cases h
  · simp only [hb] at h
    rcases List.mem_filterMap.mp h with ⟨sid, hsid, hv⟩
    rcases hsh : getShaft w sid with _ | sh
    · rw [hsh] at hv; cases hv
    · simp only [hsh] at hv
      by_cases h1 : sh.startBall = some b
      · rw [if_pos h1] at hv
        exact ⟨sid, sh, hsh, Or.inl ⟨h1, hv⟩⟩
      · rw [if_neg h1] at hv
        by_cases h2 : sh.endBall = some b
        · rw [if_pos h2] at hv
          exact ⟨sid, sh, hsh, Or.inr ⟨hv, h2⟩⟩
        · rw [if_neg h2] at hv; cases hv

theorem connectedOf_of_boundLink (w : World K) (hwf : wfCheck w = true)
    (b c : Nat) (h : BoundLink w b c) : c ∈ connectedOf w b := by
  obtain ⟨sid, sh, hsh, hor⟩ := h
  have hbball : ∃ ball, getBall w b = some ball ∧ sid ∈ ball.connectedShafts := by
    refine wf_registered w hwf (sid, sh) (getShaft_mem w sid sh hsh) b ?_
    rcases hor with ⟨h1, h2⟩ | ⟨h1, h2⟩
    · exact Or.inl h1
    · exact Or.inr h2
  obtain ⟨ball, hb, hmem⟩ := hbball
  unfold connectedOf
  rw [hb]
  refine List.mem_filterMap.mpr ⟨sid, hmem, ?_⟩
  simp only [hsh]
  rcases hor with ⟨h1, h2⟩ | ⟨h1, h2⟩
  · rw [if_pos h1]
    exact h2
  · by_cases hsb : sh.startBall = some b
    · rw [if_pos hsb]
      rw [h1] at hsb
      injection hsb with hcb
      rw [h2, hcb]
    · rw [if_neg hsb, if_pos h2]
      exact h1

theorem adjReach_iff_reachable (w : World K) (hwf : wfCheck w = true)
    (a x : Nat) : AdjReach w a x ↔ Reachable w a x :=
  ⟨Relation.ReflTransGen.mono (fun u v h => boundLink_of_connectedOf w u v h),
   Relation.ReflTransGen.mono (fun u v h => connectedOf_of_boundLink w hwf u v h)⟩

theorem reach_mem_of_closed (w : World K) (R : List Nat) (q x : Nat)
    (hclosed : ∀ v ∈ R, ∀ c ∈ connectedOf w v, c ∈ R) (hq : q ∈ R)
    (hreach : AdjReach w q x) : x ∈ R := by
  induction hreach with
  | refl => exact hq
  | tail hstep hconn ih => exact hclosed _ ih _ hconn

/-- C7: `getAllConnectedBalls` returns exactly the set of balls reachable
from the two seeds along shafts whose both ends are bound: a ball hanging
only off a pending shaft is excluded, and two isolated seeds yield just
themselves.  (The traversal is a pure function of the world: it performs
no mutation by construction.) -/
theorem getAllConnectedBalls_spec (w : World K) (sourceId targetId : Nat)
    (hwf : wfCheck w = true) (x : Nat) :
    x ∈ getAllConnectedBalls w sourceId targetId ↔
      Reachable w sourceId x ∨ Reachable w targetId x := by
  unfold getAllConnectedBalls
  have habsorb := bfsAux_absorb w (sourceId :: targetId :: allIds w).toFinset
    (fun a y hy => List.mem_toFinset.mpr
      (List.mem_cons_of_mem _ (List.mem_cons_of_mem _
        (connectedOf_subset_allIds w a y hy))))
    (sourceId :: targetId :: allIds w).length [] [sourceId, targetId]
    (by
      intro a ha
      rcases List.mem_cons.mp ha with rfl | ha'
      · exact List.mem_toFinset.mpr (List.mem_cons_self _ _)
      · rcases List.mem_singleton.mp ha' with rfl
        exact List.mem_toFinset.mpr
          (List.mem_cons_of_mem _ (List.mem_cons_self _ _)))
    (by
      simp only [List.toFinset_nil, Finset.sdiff_empty]
      exact List.toFinset_card_le _)
    (fun v hv => absurd hv (List.not_mem_nil v))
  constructor
  · intro hx
    rcases bfsAux_sound w _ _ _ x hx with hv | ⟨q, hqq, hreach⟩
    · exact absurd hv (List.not_mem_nil x)
    · rcases List.mem_cons.mp hqq with rfl | hq'
      · exact Or.inl ((adjReach_iff_reachable w hwf q x).mp hreach)
      · rcases List.mem_singleton.mp hq' with rfl
        exact Or.inr ((adjReach_iff_reachable w hwf q x).mp hreach)
  · intro h
    obtain ⟨hq2, hclosed2⟩ := habsorb
    rcases h with h | h
    · exact reach_mem_of_closed w _ sourceId x (fun v hv c hc => hclosed2 v hv c hc)
        (hq2 sourceId (List.mem_cons_self _ _))
        ((adjReach_iff_reachable w hwf sourceId x).mpr h)
    · exact reach_mem_of_closed w _ targetId x (fun v hv c hc => hclosed2 v hv c hc)
        (hq2 targetId (List.mem_cons_of_mem _ (List.mem_cons_self _ _)))
        ((adjReach_iff_reachable w hwf targetId x).mpr h)

theorem getBall_setStartDirection (sqrt : K → K) (w : World K) (sid : Nat)
    (d : Vec3 K) (i : Nat) :
    getBall (setStartDirection sqrt w sid d) i = getBall w i := rfl

theorem getShaft_setStartDirection (sqrt : K → K) (w : World K) (sid : Nat)
    (d : Vec3 K) (j : Nat) :
    getShaft (setStartDirection sqrt w sid d) j =
      if j = sid then
        (getShaft w j).map (fun sh => { sh with startDirection := vnormalize sqrt d })
      else getShaft w j := by
  show getShaft ⟨w.balls, w.shafts.map _⟩ j = _
  unfold getShaft
  induction w.shafts with
  | nil => simp
  | cons p rest ih =>
    rcases p with ⟨k, v⟩
    by_cases hki : k = sid
    · by_cases hjk : j = k
      · subst hki; subst hjk
        simp [List.find?_cons_of_pos]
      · have hji : j ≠ sid := fun hh => hjk (hh.trans hki.symm)
        simp only [List.map_cons, if_pos hki]
        rw [List.find?_cons_of_neg _ (by simpa using fun h => hjk h.symm),
          List.find?_cons_of_neg _ (by simpa using fun h => hjk h.symm)]
        simpa [if_neg hji] using ih
    · by_cases hjk : j = k
      · subst hjk
        have hji : j ≠ sid := fun hh => hki (hh ▸ rfl)
        simp [List.find?_cons_of_pos, if_neg hki, if_neg hji]
      · simp only [List.map_cons, if_neg hki]
        rw [List.find?_cons_of_neg _ (by simpa using fun h => hjk h.symm),
          List.find?_cons_of_neg _ (by simpa using fun h => hjk h.symm)]
        exact ih

theorem wf_listed (w : World K) (hwf : wfCheck w = true) :
    ∀ p ∈ w.balls, ∀ sid ∈ p.2.connectedShafts,
      ∃ sh, getShaft w sid = some sh ∧
        (sh.startBall = some p.1 ∨ sh.endBall = some p.1) := by
  have h1 := (Bool.and_eq_true_iff.mp hwf).1
  rw [List.all_eq_true] at h1
  intro p hp sid hsid
  have hp1 := h1 p hp
  rw [List.all_eq_true] at hp1
  have := hp1 sid hsid
  rcases hsh : getShaft w sid with _ | sh
  · rw [hsh] at this; cases this
  · rw [hsh] at this
    refine ⟨sh, rfl, ?_⟩
    rcases Bool.or_eq_true_iff.mp this with h' | h'
    · exact Or.inl (by simpa using h')
    · exact Or.inr (by simpa using h')

theorem getAllConnectedBalls_base (w : World K) (sourceId targetId : Nat) :
    (sourceId ∈ getAllConnectedBalls w sourceId targetId ∧
      targetId ∈ getAllConnectedBalls w sourceId targetId) ∧
    (∀ v ∈ getAllConnectedBalls w sourceId targetId,
      ∀ c ∈ connectedOf w v, c ∈ getAllConnectedBalls w sourceId targetId) := by
  unfold getAllConnectedBalls
  have habsorb := bfsAux_absorb w (sourceId :: targetId :: allIds w).toFinset
    (fun a y hy => List.mem_toFinset.mpr
      (List.mem_cons_of_mem _ (List.mem_cons_of_mem _
        (connectedOf_subset_allIds w a y hy))))
    (sourceId :: targetId :: allIds w).length [] [sourceId, targetId]
    (by
      intro a ha
      rcases List.mem_cons.mp ha with rfl | ha'
      · exact List.mem_toFinset.mpr (List.mem_cons_self _ _)
      · rcases List.mem_singleton.mp ha' with rfl
        exact List.mem_toFinset.mpr
          (List.mem_cons_of_mem _ (List.mem_cons_self _ _)))
    (by
      simp only [List.toFinset_nil, Finset.sdiff_empty]
      exact List.toFinset_card_le _)
    (fun v hv => absurd hv (List.not_mem_nil v))
  exact ⟨⟨habsorb.1 sourceId (List.mem_cons_self _ _),
    habsorb.1 targetId (List.mem_cons_of_mem _ (List.mem_cons_self _ _))⟩,
    habsorb.2⟩

theorem lookupState_mem (st : List (Nat × BallState K)) (i : Nat)
    (v : BallState K) (h : lookupState st i = some v) : (i, v) ∈ st := by
  unfold lookupState at h
  rcases hfind : st.find? (fun p => p.1 == i) with _ | q
  · rw [hfind] at h; cases h
  · rw [hfind] at h
    simp only [Option.map_some', Option.some.injEq] at h
    have hkey : q.1 = i := by simpa using List.find?_some hfind
    have hq : q = (i, v) := by
      rcases q with ⟨qk, qv⟩
      simp only at hkey h
      rw [hkey, h]
    rw [← hq]
    exact List.mem_of_find?_eq_some hfind

theorem buildBallStates_entries (w : World K) (l : List Nat) :
    ∀ p ∈ buildBallStates w l,
      p.1 ∈ l ∧ ∃ ball, getBall w p.1 = some ball ∧
        p.2.originalPosition = ball.position ∧
        p.2.newPosition = ball.position := by
  unfold buildBallStates
  suffices h : ∀ (acc : List (Nat × BallState K)),
      (∀ p ∈ acc, p.1 ∈ l ∧ ∃ ball, getBall w p.1 = some ball ∧
        p.2.originalPosition = ball.position ∧ p.2.newPosition = ball.position) →
      ∀ p ∈ l.foldl (fun acc i =>
          match getBall w i with
          | none => acc
          | some ball =>
            upsertState acc i
              ⟨ball.position, ball.position,
                1 + (((ball.connectedShafts.filterMap (getShaft w)).filter
                  isFullyConnected).length : K)⟩) acc,
        p.1 ∈ l ∧ ∃ ball, getBall w p.1 = some ball ∧
          p.2.originalPosition = ball.position ∧ p.2.newPosition = ball.position by
    exact h [] (fun p hp => absurd hp (List.not_mem_nil p))
  have hmono : ∀ (q : List Nat) (hq : ∀ x ∈ q, x ∈ l), ∀ acc,
      (∀ p ∈ acc, p.1 ∈ l ∧ ∃ ball, getBall w p.1 = some ball ∧
        p.2.originalPosition = ball.position ∧ p.2.newPosition = ball.position) →
      ∀ p ∈ q.foldl (fun acc i =>
          match getBall w i with
          | none => acc
          | some ball =>
            upsertState acc i
              ⟨ball.position, ball.position,
                1 + (((ball.connectedShafts.filterMap (getShaft w)).filter
                  isFullyConnected).length : K)⟩) acc,
        p.1 ∈ l ∧ ∃ ball, getBall w p.1 = some ball ∧
          p.2.originalPosition = ball.position ∧ p.2.newPosition = ball.position := by
    intro q
    induction q with
    | nil => intro hq acc hacc p hp; exact hacc p hp
    | cons j q' ih =>
      intro hq acc hacc p hp
      rw [List.foldl_cons] at hp
      refine ih (fun x hx => hq x (List.mem_cons_of_mem _ hx)) _ ?_ p hp
      intro r hr
      rcases hb : getBall w j with _ | ball
      · simp only [hb] at hr; exact hacc r hr
      · simp only [hb] at hr
        unfold upsertState at hr
        split at hr
        · rcases List.mem_map.mp hr with ⟨q0, hq0, rfl⟩
          by_cases hq0j : q0.1 = j
          · simp only [if_pos hq0j]
            refine ⟨?_, ball, ?_, rfl, rfl⟩
            · show q0.1 ∈ l
              rw [hq0j]
              exact hq j (List.mem_cons_self _ _)
            · show getBall w q0.1 = some ball
              rw [hq0j]
              exact hb
          · simp only [if_neg hq0j]
            exact hacc q0 hq0
        · rcases List.mem_append.mp hr with hr' | hr'
          · exact hacc r hr'
          · rcases List.mem_singleton.mp hr' with rfl
            exact ⟨hq j (List.mem_cons_self _ _), ball, hb, rfl, rfl⟩
  exact hmono l (fun x hx => hx)

theorem applyConstraint_noop (sqrt : K → K) (rngv : Vec3 K)
    (states : List (Nat × BallState K)) (c : Constraint K)
    (h : ∀ s1 s2, lookupState states c.ball1 = some s1 →
      lookupState states c.ball2 = some s2 →
      vnorm sqrt (vsub s2.newPosition s1.newPosition) = c.distance) :
    applyConstraint sqrt rngv (states, (0 : K)) c = (states, 0) := by
  have htol : ¬ POSITION_TOLERANCE < (0 : K) := by
    rw [not_lt]
    unfold POSITION_TOLERANCE
    positivity
  rcases h1 : lookupState states c.ball1 with _ | s1
  · simp only [applyConstraint.eq_def, h1]
  · rcases h2 : lookupState states c.ball2 with _ | s2
    · simp only [applyConstraint.eq_def, h1, h2]
    · have herr : vnorm sqrt (vsub s2.newPosition s1.newPosition) - c.distance = 0 := by
        rw [h s1 s2 h1 h2]
        ring
      simp only [applyConstraint.eq_def, h1, h2, herr, if_neg htol, abs_zero,
        max_self]

theorem runPass_zero (sqrt : K → K) (rngp : Nat → Vec3 K)
    (constraints : List (Constraint K)) (states : List (Nat × BallState K))
    (h : ∀ c ∈ constraints, ∀ s1 s2, lookupState states c.ball1 = some s1 →
      lookupState states c.ball2 = some s2 →
      vnorm sqrt (vsub s2.newPosition s1.newPosition) = c.distance) :
    runPass sqrt rngp constraints states = (states, 0) := by
  unfold runPass
  have hgen : ∀ (l : List (Nat × Constraint K)), (∀ ic ∈ l, ic.2 ∈ constraints) →
      l.foldl (fun a ic => applyConstraint sqrt (rngp ic.1) a ic.2)
        (states, 0) = (states, 0) := by
    intro l
    induction l with
    | nil => intro _; rfl
    | cons ic l' ih =>
      intro hl
      rw [List.foldl_cons,
        applyConstraint_noop sqrt (rngp ic.1) states ic.2
          (h ic.2 (hl ic (List.mem_cons_self _ _)))]
      exact ih (fun x hx => hl x (List.mem_cons_of_mem _ hx))
  refine hgen _ (fun ic hic => ?_)
  have := List.mem_map_of_mem Prod.snd hic
  rwa [List.enum_map_snd] at this

theorem solve_zero (sqrt : K → K) (rng2 : Nat → Nat → Vec3 K)
    (states : List (Nat × BallState K)) (constraints : List (Constraint K))
    (h : ∀ c ∈ constraints, ∀ s1 s2, lookupState states c.ball1 = some s1 →
      lookupState states c.ball2 = some s2 →
      vnorm sqrt (vsub s2.newPosition s1.newPosition) = c.distance) :
    solve sqrt rng2 states constraints = (⟨true, 0, 0⟩, states) := by
  have htolpos : (0 : K) < POSITION_TOLERANCE := by
    unfold POSITION_TOLERANCE
    positivity
  unfold solve
  rw [show MAX_ITERATIONS = 499 + 1 from rfl, solveAux,
    runPass_zero sqrt (rng2 0) constraints states h]
  simp only [if_pos htolpos]

theorem applyPlan_noop (sqrt : K → K) (w : World K) (plan : ConnectionPlan K)
    (hsqrt0 : sqrt 0 = 0)
    (h : ∀ p ∈ plan.ballStates, p.2.originalPosition = p.2.newPosition) :
    applyPlan sqrt w plan = w := by
  have htol : ¬ POSITION_TOLERANCE < (0 : K) := by
    rw [not_lt]
    unfold POSITION_TOLERANCE
    positivity
  unfold applyPlan
  have hgen : ∀ (l : List (Nat × BallState K)),
      (∀ p ∈ l, p.2.originalPosition = p.2.newPosition) →
      ∀ wacc, l.foldl (fun wacc p =>
        if POSITION_TOLERANCE <
            dist3 sqrt p.2.originalPosition p.2.newPosition then
          setPosition wacc p.1 p.2.newPosition
        else wacc) wacc = wacc := by
    intro l
    induction l with
    | nil => intro _ wacc; rfl
    | cons p l' ih =>
      intro hl wacc
      rw [List.foldl_cons]
      have hz : dist3 sqrt p.2.originalPosition p.2.newPosition = 0 := by
        rw [hl p (List.mem_cons_self _ _)]
        unfold dist3 vnorm vsub
        rw [show p.2.newPosition.x - p.2.newPosition.x = 0 from by ring,
          show p.2.newPosition.y - p.2.newPosition.y = 0 from by ring,
          show p.2.newPosition.z - p.2.newPosition.z = 0 from by ring]
        rw [show (0 : K) * 0 + 0 * 0 + 0 * 0 = 0 from by ring]
        exact hsqrt0
      rw [hz, if_neg htol]
      exact ih (fun x hx => hl x (List.mem_cons_of_mem _ hx)) wacc
  exact hgen plan.ballStates h w

theorem getShaft_setStartDirection_fields (sqrt : K → K) (w : World K)
    (sid : Nat) (d : Vec3 K) (j : Nat) (sh1 : ShaftData K)
    (hj : getShaft (setStartDirection sqrt w sid d) j = some sh1) :
    ∃ sh0, getShaft w j = some sh0 ∧ sh1.length = sh0.length ∧
      sh1.startBall = sh0.startBall ∧ sh1.endBall = sh0.endBall := by
  rw [getShaft_setStartDirection] at hj
  by_cases hjs : j = sid
  · rw [if_pos hjs] at hj
    rcases hsh0 : getShaft w j with _ | sh0
    · rw [hsh0] at hj; cases hj
    · rw [hsh0] at hj
      simp only [Option.map_some', Option.some.injEq] at hj
      exact ⟨sh0, rfl, by rw [← hj], by rw [← hj], by rw [← hj]⟩
  · rw [if_neg hjs] at hj
    exact ⟨sh1, hj, rfl, rfl, rfl⟩

/-- C8: if the proposed connection is already exactly at the required
distance and every fully-bound shaft touching the affected component is
exactly at its required distance, then `solveConstraints` succeeds and
leaves every ball (bit for bit) where it was: the first pass records max
error `0`, the solver stops immediately with the initial states, the
validator sees zero errors, and `applyPlan` moves nothing. -/
theorem solveConstraints_noop (sqrt : K → K) (rng2 : Nat → Nat → Vec3 K)
    (w : World K) (sourceId shaftId targetId : Nat) (newShaft : ShaftData K)
    (sourceBall targetBall : BallData K)
    (hwf : wfCheck w = true) (hsqrt0 : sqrt 0 = 0)
    (hsh : getShaft w shaftId = some newShaft)
    (hsrc : getBall w sourceId = some sourceBall)
    (htgt : getBall w targetId = some targetBall)
    (hdist : dist3 sqrt sourceBall.position targetBall.position =
      newShaft.length + 2 * BALL_RADIUS)
    (hshafts : ∀ sid sh, getShaft w sid = some sh →
      isFullyConnected sh = true →
      (∃ i ∈ getAllConnectedBalls w sourceId targetId, ∃ ball,
        getBall w i = some ball ∧ sid ∈ ball.connectedShafts) →
      ∀ a b pa pb, sh.startBall = some a → sh.endBall = some b →
        getBall w a = some pa → getBall w b = some pb →
        dist3 sqrt pa.position pb.position = sh.length + 2 * BALL_RADIUS) :
    (solveConstraints sqrt rng2 w sourceId shaftId targetId).1 = true ∧
    (solveConstraints sqrt rng2 w sourceId shaftId targetId).2.balls =
      w.balls := by
  have h01 : ¬ POSITION_TOLERANCE * 100 < (0 : K) := by
    rw [not_lt]
    unfold POSITION_TOLERANCE
    positivity
  rw [solveConstraints.eq_def]
  simp only [hsh, hsrc, htgt]
  set w1 := setStartDirection sqrt w shaftId
    (vnormalize sqrt (vsub targetBall.position sourceBall.position)) with hw1
  set allB := getAllConnectedBalls w sourceId targetId with hallB
  set req := newShaft.length + 2 * BALL_RADIUS with hreq
  set st0 := buildBallStates w1 allB with hst0
  set cons := collectConstraints w1 allB sourceId targetId req with hcons
  obtain ⟨⟨hsmem, htmem⟩, hclosedB⟩ := getAllConnectedBalls_base w sourceId targetId
  have hball1 : ∀ i, getBall w1 i = getBall w i := fun i => rfl
  have hentries := buildBallStates_entries w1 allB
  -- every collected constraint is exactly satisfied by the initial states
  have hF1 : ∀ c ∈ cons, ∀ s1 s2, lookupState st0 c.ball1 = some s1 →
      lookupState st0 c.ball2 = some s2 →
      vnorm sqrt (vsub s2.newPosition s1.newPosition) = c.distance := by
    obtain ⟨hne, hlast, hpend, hdrop, hinc, hcount⟩ :=
      collectConstraints_spec w1 allB sourceId targetId req
    intro c hc s1 s2 h1 h2
    obtain ⟨hmem1, pa, hpa, hpao, hpan⟩ :=
      hentries _ (lookupState_mem st0 c.ball1 s1 h1)
    obtain ⟨hmem2, pb, hpb, hpbo, hpbn⟩ :=
      hentries _ (lookupState_mem st0 c.ball2 s2 h2)
    rw [hball1] at hpa hpb
    have hrec := List.dropLast_append_getLast hne
    have hc2 : c ∈ collectConstraints w1 allB sourceId targetId req := hc
    rw [← hrec] at hc2
    rcases List.mem_append.mp hc2 with hcd | hcl
    · obtain ⟨sid, sh1, hcs, hgs1, hful1, hstart1, hend1, hdist1, i, hiB, ball,
        hball, hsidmem⟩ := hdrop c hcd
      obtain ⟨sh0, hgs0, hlen, hsb, heb⟩ :=
        getShaft_setStartDirection_fields sqrt w shaftId _ sid sh1 hgs1
      rw [hball1] at hball
      have hful0 : isFullyConnected sh0 = true := by
        unfold isFullyConnected at hful1 ⊢
        rw [← hsb, ← heb]
        exact hful1
      have hd := hshafts sid sh0 hgs0 hful0 ⟨i, hiB, ball, hball, hsidmem⟩
        c.ball1 c.ball2 pa pb (by rw [← hsb]; exact hstart1)
        (by rw [← heb]; exact hend1) hpa hpb
      rw [hpan, hpbn]
      show dist3 sqrt pa.position pb.position = c.distance
      rw [hd, hdist1, hlen]
    · have hceq : c = ⟨sourceId, targetId, req, none⟩ := by
        rcases List.mem_singleton.mp hcl with rfl
        have := hlast
        rw [← hrec, List.getLast?_concat] at this
        exact Option.some_inj.mp this
      subst hceq
      simp only at h1 h2 hpa hpb hpan hpbn
      have hpa' : pa = sourceBall := by
        have := hpa.symm.trans hsrc
        injection this
      have hpb' : pb = targetBall := by
        have := hpb.symm.trans htgt
        injection this
      rw [hpan, hpbn, hpa', hpb']
      show dist3 sqrt sourceBall.position targetBall.position = req
      rw [hdist]
  have hF2 : solve sqrt rng2 st0 cons = (⟨true, 0, 0⟩, st0) :=
    solve_zero sqrt rng2 st0 cons hF1
  have hplan : createPlan sqrt rng2 w1 sourceId targetId req allB =
      ⟨true, st0⟩ := by
    have hF2x : solve sqrt rng2 (buildBallStates w1 allB)
        (collectConstraints w1 allB sourceId targetId req) =
        (⟨true, 0, 0⟩, buildBallStates w1 allB) := hF2
    simp only [createPlan]
    rw [hF2x]
  have hls : lookupState st0 sourceId = some
      ⟨sourceBall.position, sourceBall.position,
        1 + (((sourceBall.connectedShafts.filterMap (getShaft w1)).filter
          isFullyConnected).length : K)⟩ := by
    rw [hst0]
    exact lookupState_buildBallStates w1 allB sourceId sourceBall hsrc hsmem
  have hlt : lookupState st0 targetId = some
      ⟨targetBall.position, targetBall.position,
        1 + (((targetBall.connectedShafts.filterMap (getShaft w1)).filter
          isFullyConnected).length : K)⟩ := by
    rw [hst0]
    exact lookupState_buildBallStates w1 allB targetId targetBall htgt htmem
  have herr0 : ∀ sid e, sid ∈ incidentSids w1 (st0.map Prod.fst) →
      validateErr sqrt w1 st0 sid = some e → e = 0 := by
    intro sid e hmem he
    unfold validateErr at he
    rcases hg1 : getShaft w1 sid with _ | sh1
    · rw [hg1] at he; cases he
    · simp only [hg1] at he
      by_cases hful : isFullyConnected sh1 = true
      · rw [if_pos hful] at he
        rcases hstart : sh1.startBall with _ | a
        · simp [hstart] at he
        · rcases hend : sh1.endBall with _ | b
          · simp [hstart, hend] at he
          · simp only [hstart, hend] at he
            rcases hsa : lookupState st0 a with _ | sa
            · simp [hsa] at he
            · rcases hsb : lookupState st0 b with _ | sb
              · simp [hsa, hsb] at he
              · simp only [hsa, hsb, Option.some.injEq] at he
                have he' := he
                obtain ⟨hma, pa, hpa, hpao, hpan⟩ :=
                  hentries _ (lookupState_mem st0 a sa hsa)
                obtain ⟨hmb, pb, hpb, hpbo, hpbn⟩ :=
                  hentries _ (lookupState_mem st0 b sb hsb)
                rw [hball1] at hpa hpb
                obtain ⟨sh0, hgs0, hlen, hsb0, heb0⟩ :=
                  getShaft_setStartDirection_fields sqrt w shaftId _ sid sh1 hg1
                have hful0 : isFullyConnected sh0 = true := by
                  unfold isFullyConnected at hful ⊢
                  rw [← hsb0, ← heb0]
                  exact hful
                obtain ⟨i, hi, ball, hball, hsidmem⟩ :=
                  (mem_incidentSids w1 (st0.map Prod.fst) sid).mp hmem
                rcases List.mem_map.mp hi with ⟨p, hp, rfl⟩
                have hpB : p.1 ∈ allB := (hentries p hp).1
                rw [hball1] at hball
                have hd := hshafts sid sh0 hgs0 hful0
                  ⟨p.1, hpB, ball, hball, hsidmem⟩ a b pa pb
                  (by rw [← hsb0]; exact hstart) (by rw [← heb0]; exact hend)
                  hpa hpb
                rw [← he', hpan, hpbn]
                have hdd : dist3 sqrt pa.position pb.position =
                    sh1.length + 2 * BALL_RADIUS := by
                  rw [hd, hlen]
                show |dist3 sqrt pa.position pb.position -
                  (sh1.length + 2 * BALL_RADIUS)| = 0
                rw [hdd]
                simp
      · rw [if_neg hful] at he; cases he
  have hvalid : validatePlan sqrt w1 ⟨true, st0⟩ newShaft.length sourceId
      targetId = true := by
    rw [validatePlan.eq_def]
    simp only [hls, hlt]
    have h0 : |dist3 sqrt sourceBall.position targetBall.position -
        (newShaft.length + 2 * BALL_RADIUS)| = 0 := by
      rw [hdist]
      simp
    rw [h0, if_neg h01]
    rw [validate_fold_flat sqrt w1 st0 st0 (([], 0) : List Nat × K)]
    have hiff := validateStep_fold_iff sqrt w1 st0 (POSITION_TOLERANCE * 100)
      (incidentSids w1 (st0.map Prod.fst)) (([], 0) : List Nat × K)
      (by intro sid hsid e he; simp at hsid)
    have hnone : ¬ (POSITION_TOLERANCE * 100 <
        ((incidentSids w1 (st0.map Prod.fst)).foldl
          (validateStep sqrt w1 st0) (([], 0) : List Nat × K)).2) := by
      rw [hiff]
      rintro (hz | ⟨sid, hmem, e, he, hbe⟩)
      · exact h01 hz
      · rw [herr0 sid e hmem he] at hbe
        exact h01 hbe
    rw [if_neg hnone]
  have happly : applyPlan sqrt w1 ⟨true, st0⟩ = w1 := by
    refine applyPlan_noop sqrt w1 ⟨true, st0⟩ hsqrt0 ?_
    intro p hp
    obtain ⟨hm, ball, hball, ho, hn⟩ := hentries p hp
    rw [ho, hn]
  rw [hplan]
  simp only [hvalid, if_pos rfl, if_true]
  rw [happly]
  exact ⟨trivial, rfl⟩

/-- If one pass sends a state map to itself with max error `e` at or
above the tolerance, every later pass does the same, so the solver runs
its whole budget and reports exhaustion with error `e`. -/
theorem solveAux_fixed (sqrt : K → K) (rng2 : Nat → Nat → Vec3 K)
    (constraints : List (Constraint K)) (st : List (Nat × BallState K)) (e : K)
    (hrun : ∀ i, runPass sqrt (rng2 i) constraints st = (st, e))
    (he : ¬ e < POSITION_TOLERANCE) :
    ∀ fuel iter lastErr, 0 < fuel →
      solveAux sqrt rng2 constraints fuel iter st lastErr =
        (⟨decide (e < POSITION_TOLERANCE * 100), e, MAX_ITERATIONS⟩, st) := by
  intro fuel
  induction fuel with
  | zero => intro iter lastErr h; exact absurd h (lt_irrefl 0)
  | succ n ih =>
    intro iter lastErr _
    rw [solveAux, hrun iter]
    simp only [if_neg he]
    cases n with
    | zero => rw [solveAux]
    | succ m => exact ih (iter + 1) e (Nat.succ_pos m)

set_option maxRecDepth 100000 in
/-- One solver pass on the failing example is the identity on the state
map and records max error exactly `3/2` (the positions were engineered as
an exact fixed point of the sequential pass map). -/
theorem exSt_fixed0 :
    runPass sqrtQ (rng0 0) exCons exSt = (exSt, 3 / 2) := by
  decide!

/-- The plan built for the failing example: the solver exhausts its
budget at error `3/2`, far above even the loose threshold, so the plan is
invalid and carries the untouched initial states. -/
theorem exFail_plan :
    createPlan sqrtQ rng0 exFailAfter 1 2 (2 + 2 * BALL_RADIUS) [1, 2, 0] =
      ⟨false, exSt⟩ := by
  have hst : buildBallStates exFailAfter [1, 2, 0] = exSt := by decide!
  have hcons : collectConstraints exFailAfter [1, 2, 0] 1 2
      (2 + 2 * BALL_RADIUS) = exCons := by decide!
  have hd : decide ((3 : ℚ) / 2 < POSITION_TOLERANCE * 100) = false := by
    decide!
  have hfix : ∀ i, runPass sqrtQ (rng0 i) exCons exSt = (exSt, 3 / 2) :=
    fun _ => exSt_fixed0
  have hnl : ¬ (3 : ℚ) / 2 < POSITION_TOLERANCE := by decide!
  simp only [createPlan]
  rw [hst, hcons]
  unfold solve
  rw [solveAux_fixed sqrtQ rng0 exCons exSt (3 / 2) hfix hnl MAX_ITERATIONS 0 0
    (by decide), hd]

/-- Full concrete run of the failing example: the solver exhausts its 500
passes at max error `3/2`, the plan is rejected, and the returned world
is the input with only the pending shaft's direction hint overwritten. -/
theorem exFail_eval :
    solveConstraints sqrtQ rng0 exFail 1 12 2 = (false, exFailAfter) := by
  have hw1 : setStartDirection sqrtQ exFail 12
      (vnormalize sqrtQ (vsub (⟨-2, 0, 0⟩ : Vec3 ℚ) ⟨7 / 4, 0, 0⟩)) =
        exFailAfter := by decide!
  have hallB : getAllConnectedBalls exFail 1 2 = [1, 2, 0] := by decide!
  have h1 : getShaft exFail 12 = some ⟨2, some 1, none, ⟨0, 1, 0⟩⟩ := rfl
  have h2 : getBall exFail 1 = some ⟨⟨7 / 4, 0, 0⟩, [10, 12]⟩ := rfl
  have h3 : getBall exFail 2 = some ⟨⟨-2, 0, 0⟩, [11]⟩ := rfl
  rw [solveConstraints.eq_def]
  simp only [h1, h2, h3]
  rw [hallB, hw1, exFail_plan]
  rfl

theorem solveConstraints_fail_preserves_balls_witness :
    (solveConstraints sqrtQ rng0 exFail 1 12 2).1 = false ∧
    (solveConstraints sqrtQ rng0 exFail 1 12 2).2.balls = exFail.balls :=
  ⟨by rw [exFail_eval],
   solveConstraints_fail_preserves_balls sqrtQ rng0 exFail 1 12 2
     (by rw [exFail_eval])⟩

/-- Counterexample to the claim that a failed attempt leaves the whole
graph state unchanged: this failed attempt rewrites the pending shaft's
start-direction hint from `(0, 1, 0)` to `(-1, 0, 0)`. -/
theorem solveConstraints_fail_changes_direction :
    (solveConstraints sqrtQ rng0 exFail 1 12 2).1 = false ∧
    (getShaft (solveConstraints sqrtQ rng0 exFail 1 12 2).2 12).map
        (fun sh => sh.startDirection) = some ⟨-1, 0, 0⟩ ∧
    (getShaft exFail 12).map (fun sh => sh.startDirection) =
      some ⟨0, 1, 0⟩ := by
  rw [exFail_eval]
  exact ⟨rfl, rfl, rfl⟩

theorem solveConstraints_fail_world_witness :
    (solveConstraints sqrtQ rng0 exFail 1 12 2).2 =
      setStartDirection sqrtQ exFail 12
        (vnormalize sqrtQ
          (vsub (⟨⟨-2, 0, 0⟩, [11]⟩ : BallData ℚ).position
            (⟨⟨7 / 4, 0, 0⟩, [10, 12]⟩ : BallData ℚ).position)) :=
  solveConstraints_fail_world sqrtQ rng0 exFail 1 12 2
    ⟨2, some 1, none, ⟨0, 1, 0⟩⟩ ⟨⟨7 / 4, 0, 0⟩, [10, 12]⟩ ⟨⟨-2, 0, 0⟩, [11]⟩
    rfl rfl rfl (by rw [exFail_eval])

theorem applyConstraint_update_rule_witness :
    lookupState (applyConstraint sqrtQ ⟨0, 0, 0⟩ (st4, 0) c4).1 c4.ball1 =
      some ⟨⟨0, 0, 0⟩, ⟨2 / 3, 0, 0⟩, 1⟩ ∧
    lookupState (applyConstraint sqrtQ ⟨0, 0, 0⟩ (st4, 0) c4).1 c4.ball2 =
      some ⟨⟨3, 0, 0⟩, ⟨8 / 3, 0, 0⟩, 2⟩ := by
  obtain ⟨h1a, h1b, _⟩ :=
    (applyConstraint_update_rule sqrtQ ⟨0, 0, 0⟩ st4 0 c4 s41 s42 rfl rfl
      (by decide) (by decide!) (by decide!) (by decide!)).1 (by decide!)
  rw [h1a, h1b]
  exact ⟨by decide!, by decide!⟩

theorem validatePlan_spec_witness :
    validatePlan sqrtQ exOk plan3 10 1 2 = false :=
  (validatePlan_spec sqrtQ exOk plan3 10 1 2
      ⟨⟨0, 0, 0⟩, ⟨0, 0, 0⟩, 1⟩ ⟨⟨3, 0, 0⟩, ⟨3, 0, 0⟩, 1⟩ rfl rfl).mpr
    (Or.inl (by decide!))

theorem createPlan_mass_witness :
    ∃ st, lookupState (createPlan sqrtQ rng0 exOk 1 2 3 [1, 2]).ballStates 1 =
        some st ∧
      st.originalPosition = (⟨0, 0, 0⟩ : Vec3 ℚ) ∧
      st.mass = 1 + ((([12] : List Nat).filter (boundShaft exOk)).length : ℚ) :=
  createPlan_mass sqrtQ rng0 exOk 1 2 3 [1, 2] 1 ⟨⟨0, 0, 0⟩, [12]⟩ rfl
    (by decide) (by decide)

theorem getAllConnectedBalls_spec_witness :
    (0 ∈ getAllConnectedBalls exFail 1 2 ↔
      Reachable exFail 1 0 ∨ Reachable exFail 2 0) :=
  getAllConnectedBalls_spec exFail 1 2 (by decide) 0

theorem solveConstraints_noop_witness :
    (solveConstraints sqrtQ rng0 exOk 1 12 2).1 = true ∧
    (solveConstraints sqrtQ rng0 exOk 1 12 2).2.balls = exOk.balls := by
  refine solveConstraints_noop sqrtQ rng0 exOk 1 12 2
    ⟨2, some 1, none, ⟨0, 1, 0⟩⟩ ⟨⟨0, 0, 0⟩, [12]⟩ ⟨⟨3, 0, 0⟩, []⟩
    (by decide) (by decide!) rfl rfl rfl (by decide!) ?_
  intro sid sh hg hfc
  have h := List.mem_singleton.mp (getShaft_mem exOk sid sh hg)
  injection h with h1 h2
  subst h2
  exact absurd hfc (by decide)

theorem connectedShafts_nodup_invariant_witness :
    addConnectedShaft [5, 7] 7 = [5, 7] ∧
    ShaftListsNodup (applyOps sqrtQ [Op.attachEnd 12 2] exOk) :=
  ⟨(connectedShafts_nodup_invariant sqrtQ).1 [5, 7] 7 (by decide),
   (connectedShafts_nodup_invariant sqrtQ).2 [Op.attachEnd 12 2] exOk
     (by decide : ∀ p ∈ exOk.balls, p.2.connectedShafts.Nodup)⟩

end MagnetGame
